import Mathlib

/-!
Verification development for the vendor-relay service
(apps/vendor-relay/src/main.py).

The Python source is shallowly embedded: pure helpers become Lean
functions, the FastAPI dependency pipeline becomes explicit sequencing in
an error monad, the audit sink becomes an explicit list of records, and
the mutating dict traversal of sanitize_vendor_data is additionally given
a heap-based model to reason about non-mutation of the caller's payload.
-/

set_option maxRecDepth 200000

/-! ## Character-list machinery: Python `in` and `str.replace` semantics -/

/-- Prefix test on character lists (pattern first). -/
def isPre : List Char → List Char → Bool
  | [], _ => true
  | _ :: _, [] => false
  | p :: ps, c :: cs => p == c && isPre ps cs

/-- Python `pat in s` substring test: true iff `pat` occurs in `s`
(the empty pattern occurs in every string). -/
def hasSub (pat : List Char) : List Char → Bool
  | [] => isPre pat []
  | c :: rest => isPre pat (c :: rest) || hasSub pat rest

/-- The vendor display name "CustomerScout" as a character list, the
pattern of the `value.replace("CustomerScout", "Rylie SEO")` call in
sanitize_vendor_data. -/
def csPat : List Char :=
  ['C', 'u', 's', 't', 'o', 'm', 'e', 'r', 'S', 'c', 'o', 'u', 't']

/-- The platform display name "Rylie SEO" as a character list, the
replacement of the `value.replace` call in sanitize_vendor_data. -/
def rylieStr : List Char :=
  ['R', 'y', 'l', 'i', 'e', ' ', 'S', 'E', 'O']

/-- Python `s.replace("CustomerScout", "Rylie SEO")`: left-to-right,
non-overlapping replacement of every occurrence. -/
def replCS : List Char → List Char
  | [] => []
  | c :: rest =>
    if isPre csPat (c :: rest) then rylieStr ++ replCS (rest.drop 12)
    else c :: replCS rest
termination_by l => l.length
decreasing_by
  all_goals simp [List.length_drop]
  omega

/-- String-level wrapper for `replCS`, the embedding of
`value.replace("CustomerScout", "Rylie SEO")`. -/
def pyReplaceCS (s : String) : String := String.mk (replCS s.data)

/-- String contains the vendor display name "CustomerScout". -/
def strHasCS (s : String) : Bool := hasSub csPat s.data

/-! ## Python value model

Payloads are JSON-shaped Python values: strings, integers, booleans,
None, dicts (association lists in insertion order — Python dicts preserve
insertion order and the code only iterates, deletes and reassigns keys),
and lists. Numbers are modelled as integers (the payloads the code
manipulates carry ints and strings). -/

mutual

inductive PyVal : Type where
  | str (s : String)
  | int (n : Int)
  | bool (b : Bool)
  | none
  | dict (d : PyDict)
  | list (l : PyList)

inductive PyDict : Type where
  | nil
  | cons (k : String) (v : PyVal) (rest : PyDict)

inductive PyList : Type where
  | nil
  | cons (v : PyVal) (rest : PyList)

end

/-- Entries of a dict, in insertion order. -/
def PyDict.toList : PyDict → List (String × PyVal)
  | .nil => []
  | .cons k v rest => (k, v) :: rest.toList

/-- Elements of a Python list. -/
def PyList.toList : PyList → List PyVal
  | .nil => []
  | .cons v rest => v :: rest.toList

/-- First binding of a key, `d.get(k)` / `k in d` combined. -/
def pyLookup : PyDict → String → Option PyVal
  | .nil, _ => Option.none
  | .cons k v rest, key => if k == key then some v else pyLookup rest key

/-- Python `isinstance(item, dict)`. -/
def isDictVal : PyVal → Bool
  | .dict _ => true
  | _ => false

/-- Python `all(isinstance(item, dict) for item in value)`. -/
def allDictB : PyList → Bool
  | .nil => true
  | .cons v rest => isDictVal v && allDictB rest

/-- Python `str.lower` (ASCII case folding; the configured markers and
the keys of interest are ASCII). -/
def pyLower (s : String) : String := String.mk (s.data.map Char.toLower)

/-- The `vendor_fields` list of sanitize_vendor_data. -/
def vendor_fields : List String :=
  ["vendor_id", "customerscout_id", "cs_id", "vendor_name",
   "vendor_email", "vendor_phone", "vendor_contact", "cs_"]

/-- Python `any(field in key.lower() for field in vendor_fields)`. -/
def isVendorKey (k : String) : Bool :=
  vendor_fields.any fun f => hasSub f.data (pyLower k).data

mutual

/-- Embedding of `sanitize_vendor_data` (main.py lines 305-331): walks
the entries of the (copied) dict in order; drops entries whose key
contains a vendor marker; replaces the vendor display name in string
values; recurses into dict values; recurses element-wise into lists all
of whose elements are dicts; leaves every other value unchanged. -/
def sanitize_vendor_data : PyDict → PyDict
  | .nil => .nil
  | .cons k v rest =>
    if isVendorKey k then sanitize_vendor_data rest
    else .cons k (sanitizeValue v) (sanitize_vendor_data rest)

/-- The per-value branch of the `for key, value` loop body (for a kept
key). -/
def sanitizeValue : PyVal → PyVal
  | .str s => .str (pyReplaceCS s)
  | .dict d => .dict (sanitize_vendor_data d)
  | .list l => if allDictB l then .list (sanitizeItems l) else .list l
  | v => v

/-- The `[sanitize_vendor_data(item) for item in value]` comprehension
(only reached when every element is a dict). -/
def sanitizeItems : PyList → PyList
  | .nil => .nil
  | .cons v rest =>
    .cons (match v with
           | .dict d => PyVal.dict (sanitize_vendor_data d)
           | x => x)
      (sanitizeItems rest)

end

mutual

/-- The redaction postcondition at the positions the traversal reaches:
every key is marker-free; every string value reached is free of the
vendor display name; dict values recurse; all-dict lists recurse
element-wise (mixed lists are not reached by the traversal). -/
def sanOkDict : PyDict → Bool
  | .nil => true
  | .cons k v rest => !isVendorKey k && sanOkVal v && sanOkDict rest

def sanOkVal : PyVal → Bool
  | .str s => !strHasCS s
  | .dict d => sanOkDict d
  | .list l => if allDictB l then sanOkItems l else true
  | _ => true

def sanOkItems : PyList → Bool
  | .nil => true
  | .cons v rest =>
    (match v with | .dict d => sanOkDict d | _ => true) && sanOkItems rest

end

mutual

/-- A vendor-identity marker (marker key or vendor display name in a
string value) occurs anywhere in the structure, at any depth, including
inside mixed lists. -/
def dictHasMarkerDeep : PyDict → Bool
  | .nil => false
  | .cons k v rest =>
    isVendorKey k || valHasMarkerDeep v || dictHasMarkerDeep rest

def valHasMarkerDeep : PyVal → Bool
  | .str s => strHasCS s
  | .dict d => dictHasMarkerDeep d
  | .list l => itemsHaveMarkerDeep l
  | _ => false

def itemsHaveMarkerDeep : PyList → Bool
  | .nil => false
  | .cons v rest => valHasMarkerDeep v || itemsHaveMarkerDeep rest

end

/-- A list mixing a vendor-marked dict and a scalar, used as concrete
input for the mixed-list behaviour. -/
def exMixedList : PyList :=
  .cons (PyVal.dict (.cons "vendor_id" (PyVal.str "v1")
    (.cons "name" (PyVal.str "CustomerScout Widget") .nil)))
    (.cons (PyVal.int 1) .nil)

/-- A payload whose "items" entry holds the mixed list above. -/
def exMixedDict : PyDict := .cons "items" (PyVal.list exMixedList) .nil


/-! ## HMAC-SHA256 (hashlib.sha256 / hmac.new(..., hashlib.sha256))

Executable embedding of the hash used by `verify_hmac` and
`forward_to_vendor`. Bytes are Nats below 256; 32-bit words are Nats
reduced mod 2^32 at every arithmetic step. Checked against the FIPS
180-4 and RFC 2202/4231 test vectors. -/

def w32 : Nat := 4294967296

def rotr32 (n x : Nat) : Nat := ((x >>> n) ||| (x <<< (32 - n))) % w32

def shaK : List Nat :=
  [1116352408, 1899447441, 3049323471, 3921009573,
   961987163, 1508970993, 2453635748, 2870763221,
   3624381080, 310598401, 607225278, 1426881987,
   1925078388, 2162078206, 2614888103, 3248222580,
   3835390401, 4022224774, 264347078, 604807628,
   770255983, 1249150122, 1555081692, 1996064986,
   2554220882, 2821834349, 2952996808, 3210313671,
   3336571891, 3584528711, 113926993, 338241895,
   666307205, 773529912, 1294757372, 1396182291,
   1695183700, 1986661051, 2177026350, 2456956037,
   2730485921, 2820302411, 3259730800, 3345764771,
   3516065817, 3600352804, 4094571909, 275423344,
   430227734, 506948616, 659060556, 883997877,
   958139571, 1322822218, 1537002063, 1747873779,
   1955562222, 2024104815, 2227730452, 2361852424,
   2428436474, 2756734187, 3204031479, 3329325298]

def shaH0 : List Nat :=
  [1779033703, 3144134277, 1013904242, 2773480762,
   1359893119, 2600822924, 528734635, 1541459225]

def bSig0 (x : Nat) : Nat := (rotr32 2 x) ^^^ (rotr32 13 x) ^^^ (rotr32 22 x)

def bSig1 (x : Nat) : Nat := (rotr32 6 x) ^^^ (rotr32 11 x) ^^^ (rotr32 25 x)

def sSig0 (x : Nat) : Nat := (rotr32 7 x) ^^^ (rotr32 18 x) ^^^ (x >>> 3)

def sSig1 (x : Nat) : Nat := (rotr32 17 x) ^^^ (rotr32 19 x) ^^^ (x >>> 10)

def chF (x y z : Nat) : Nat := (x &&& y) ^^^ ((x ^^^ 0xFFFFFFFF) &&& z)

def majF (x y z : Nat) : Nat := (x &&& y) ^^^ (x &&& z) ^^^ (y &&& z)

/-- Big-endian byte expansion, fixed width. -/
def natToBytesBE : Nat → Nat → List Nat
  | 0, _ => []
  | k+1, n => natToBytesBE k (n >>> 8) ++ [n &&& 0xFF]

/-- SHA-256 padding: 0x80, zeros to 56 mod 64, 8-byte bit length. -/
def padMsg (msg : List Nat) : List Nat :=
  let r := msg.length % 64
  let k := (119 - r) % 64
  msg ++ 0x80 :: (List.replicate k 0 ++ natToBytesBE 8 (msg.length * 8))

def bytesToWords : List Nat → List Nat
  | b0 :: b1 :: b2 :: b3 :: rest =>
    ((b0 <<< 24) ||| (b1 <<< 16) ||| (b2 <<< 8) ||| b3) :: bytesToWords rest
  | _ => []

/-- Split into 64-byte blocks; the Nat bound (instantiated with the list
length) keeps the recursion structural so the kernel can evaluate it. -/
def chunkGo : Nat → List Nat → List (List Nat)
  | _, [] => []
  | 0, _ => []
  | n+1, x :: xs => ((x :: xs).take 64) :: chunkGo n (xs.drop 63)

def chunk64 (l : List Nat) : List (List Nat) := chunkGo l.length l

def extendStep (w : List Nat) : List Nat :=
  w ++ [(sSig1 (w.getD (w.length - 2) 0) + w.getD (w.length - 7) 0 +
         sSig0 (w.getD (w.length - 15) 0) + w.getD (w.length - 16) 0) % w32]

def extendIter : Nat → List Nat → List Nat
  | 0, w => w
  | k+1, w => extendIter k (extendStep w)

def roundStep (st : List Nat) (kw : Nat × Nat) : List Nat :=
  let a := st.getD 0 0
  let b := st.getD 1 0
  let c := st.getD 2 0
  let d := st.getD 3 0
  let e := st.getD 4 0
  let f := st.getD 5 0
  let g := st.getD 6 0
  let h := st.getD 7 0
  let t1 := (h + bSig1 e + chF e f g + kw.1 + kw.2) % w32
  let t2 := (bSig0 a + majF a b c) % w32
  [(t1 + t2) % w32, a, b, c, (d + t1) % w32, e, f, g]

def compressBlock (h : List Nat) (block : List Nat) : List Nat :=
  let ws := extendIter 48 (bytesToWords block)
  let st := (shaK.zip ws).foldl roundStep h
  (h.zip st).map fun p => (p.1 + p.2) % w32

/-- SHA-256 of a byte sequence. -/
def sha256 (msg : List Nat) : List Nat :=
  let final := (chunk64 (padMsg msg)).foldl compressBlock shaH0
  (final.map (natToBytesBE 4)).flatten

/-- HMAC-SHA256 (RFC 2104) of a byte sequence. -/
def hmacSha256 (key msg : List Nat) : List Nat :=
  let k0 := if 64 < key.length then sha256 key else key
  let kp := k0 ++ List.replicate (64 - k0.length) 0
  sha256 ((kp.map fun b => b ^^^ 0x5c) ++
    sha256 ((kp.map fun b => b ^^^ 0x36) ++ msg))

/-- Python `str.encode()` (UTF-8). -/
def utf8Char (c : Char) : List Nat :=
  let n := c.toNat
  if n < 0x80 then [n]
  else if n < 0x800 then [0xC0 ||| (n >>> 6), 0x80 ||| (n &&& 0x3F)]
  else if n < 0x10000 then
    [0xE0 ||| (n >>> 12), 0x80 ||| ((n >>> 6) &&& 0x3F), 0x80 ||| (n &&& 0x3F)]
  else
    [0xF0 ||| (n >>> 18), 0x80 ||| ((n >>> 12) &&& 0x3F),
     0x80 ||| ((n >>> 6) &&& 0x3F), 0x80 ||| (n &&& 0x3F)]

def utf8Bytes (s : String) : List Nat := (s.data.map utf8Char).flatten

def hexChar (n : Nat) : Char :=
  if n < 10 then Char.ofNat (48 + n) else Char.ofNat (87 + n)

/-- Python `.hexdigest()`. -/
def hexDigest (bytes : List Nat) : String :=
  String.mk ((bytes.map fun b => [hexChar (b / 16), hexChar (b % 16)]).flatten)

/-! ## Signature Codec and Freshness Guard (verify_hmac, lines 202-245) -/

/-- The Signature Codec sign operation: the hex HMAC-SHA256 digest of
`timestamp + "." + body` under the shared secret, exactly the
`computed_signature` expression of verify_hmac and the `signature`
expression of forward_to_vendor. -/
def sign (secret tsHeader body : String) : String :=
  hexDigest (hmacSha256 (utf8Bytes secret) (utf8Bytes (tsHeader ++ "." ++ body)))

/-- Python `hmac.compare_digest` on two str arguments: a constant-time
comparison whose boolean result is equality. -/
def compare_digest (a b : String) : Bool := a == b

/-- The Signature Codec verify operation: recompute and compare. -/
def verifySig (secret tsHeader body signature : String) : Bool :=
  compare_digest (sign secret tsHeader body) signature

inductive FreshStatus where
  | ok
  | expired
  | malformed
deriving DecidableEq

def isPySpace (c : Char) : Bool :=
  c == ' ' || c == '\t' || c == '\n' || c == '\r' || c == '\x0b' || c == '\x0c'

/-- Digit run with single underscores between digits (Python int literal
grammar after the first digit). -/
def digitsVal : Nat → List Char → Option Nat
  | acc, [] => some acc
  | _, ['_'] => Option.none
  | acc, '_' :: d :: rest =>
    if d.isDigit then digitsVal (acc * 10 + (d.toNat - 48)) rest
    else Option.none
  | acc, d :: rest =>
    if d.isDigit then digitsVal (acc * 10 + (d.toNat - 48)) rest
    else Option.none

def pyIntDigits : List Char → Option Nat
  | [] => Option.none
  | d :: rest =>
    if d.isDigit then digitsVal (d.toNat - 48) rest else Option.none

/-- Python `int(str)`: optional surrounding whitespace, optional sign,
ASCII decimal digits with single underscores between digits; anything
else raises ValueError (modelled as Option.none). -/
def pyIntOfString (s : String) : Option Int :=
  let l := ((s.data.dropWhile isPySpace).reverse.dropWhile isPySpace).reverse
  match l with
  | '+' :: rest => (pyIntDigits rest).map Int.ofNat
  | '-' :: rest => (pyIntDigits rest).map fun n => -(Int.ofNat n)
  | rest => (pyIntDigits rest).map Int.ofNat

/-- The Freshness Guard of verify_hmac (lines 229-243): parse the
timestamp header as an int (ValueError gives `malformed`) and reject a
clock difference of strictly more than 300 seconds as `expired`. -/
def checkFreshness (tsHeader : String) (now : Int) : FreshStatus :=
  match pyIntOfString tsHeader with
  | Option.none => .malformed
  | some t => if 300 < (now - t).natAbs then .expired else .ok

/-- An HTTPException: status code and detail string. -/
structure HttpError where
  status : Nat
  detail : String
deriving DecidableEq

/-- Embedding of the `verify_hmac` dependency (lines 202-245): recompute
the HMAC over `timestamp_header + "." + body` and compare with
compare_digest (401 "Invalid signature" on mismatch), then check the
replay window (401 "Expired timestamp" / 401 "Invalid timestamp format").
-/
def verify_hmac (secret signatureHeader timestampHeader body : String)
    (now : Int) : Except HttpError Bool :=
  if !(compare_digest (sign secret timestampHeader body) signatureHeader) then
    Except.error ⟨401, "Invalid signature"⟩
  else
    match checkFreshness timestampHeader now with
    | .ok => Except.ok true
    | .expired => Except.error ⟨401, "Expired timestamp"⟩
    | .malformed => Except.error ⟨401, "Invalid timestamp format"⟩


/-! ## Network Provenance Guard (verify_ip_allowlist, lines 247-272) -/

/-- A parsed IPv4Network: network address (host bits zero, as enforced by
the IPv4Network constructor at startup) and prefix length. -/
structure IPv4Net where
  addr : Nat
  prefixLen : Nat
deriving DecidableEq

/-- Python `str.split('.')`. -/
def splitDots : List Char → List (List Char)
  | [] => [[]]
  | '.' :: rest => [] :: splitDots rest
  | c :: rest =>
    match splitDots rest with
    | [] => [[c]]
    | p :: ps => (c :: p) :: ps

/-- One dotted-quad octet, per ipaddress._parse_octet: nonempty, ASCII
digits only, at most three characters, no leading zero, value at most
255. -/
def parseOctet (l : List Char) : Option Nat :=
  if l.isEmpty then Option.none
  else if !(l.all Char.isDigit) then Option.none
  else if 3 < l.length then Option.none
  else if 1 < l.length && l.headD 'x' == '0' then Option.none
  else
    let v := l.foldl (fun acc c => acc * 10 + (c.toNat - 48)) 0
    if v ≤ 255 then some v else Option.none

/-- Python `IPv4Address(str)` as a 32-bit integer (ValueError is
Option.none). -/
def parseIPv4 (s : String) : Option Nat :=
  match splitDots s.data with
  | [a, b, c, d] =>
    match parseOctet a, parseOctet b, parseOctet c, parseOctet d with
    | some va, some vb, some vc, some vd =>
      some (va * 16777216 + vb * 65536 + vc * 256 + vd)
    | _, _, _, _ => Option.none
  | _ => Option.none

/-- Python `ip in network`: network_address <= ip <= broadcast_address. -/
def ipInNet (ip : Nat) (net : IPv4Net) : Bool :=
  decide (net.addr ≤ ip) && decide (ip < net.addr + 2 ^ (32 - net.prefixLen))

/-- Embedding of the `verify_ip_allowlist` dependency (lines 247-272):
loopback is always allowed; otherwise the client IP must parse as an
IPv4 address (403 "Invalid IP format" on ValueError) and fall inside at
least one configured network (else 403 "IP not in allowlist"). -/
def verify_ip_allowlist (clientIp : String) (nets : List IPv4Net) :
    Except HttpError Bool :=
  if clientIp == "127.0.0.1" || clientIp == "::1" then Except.ok true
  else
    match parseIPv4 clientIp with
    | Option.none => Except.error ⟨403, "Invalid IP format"⟩
    | some ip =>
      if nets.any (ipInNet ip) then Except.ok true
      else Except.error ⟨403, "IP not in allowlist"⟩

/-! ## Tenant Token Verifier (verify_internal_jwt, lines 274-301) -/

/-- `authorization[7:]` after a "Bearer " prefix. -/
def stripBearer (authorization : String) : String :=
  if isPre "Bearer ".data authorization.data then
    String.mk (authorization.data.drop 7)
  else authorization

/-- Embedding of the `verify_internal_jwt` dependency (lines 274-301).
The jwt.decode library call is abstracted as a `decode` function from the
bearer token to either a claims dict or a PyJWTError message; the
dependency turns a decode failure into 401 "Invalid token: ..." and a
missing sandbox_id claim into 401 "Invalid token: missing sandbox_id". -/
def verify_internal_jwt (decode : String → Except String PyDict)
    (authorization : String) : Except HttpError PyDict :=
  match decode (stripBearer authorization) with
  | Except.error e => Except.error ⟨401, "Invalid token: " ++ e⟩
  | Except.ok payload =>
    match pyLookup payload "sandbox_id" with
    | Option.none => Except.error ⟨401, "Invalid token: missing sandbox_id"⟩
    | some _ => Except.ok payload

/-! ## JSON serialization

Two serializers appear in forward_to_vendor. The signed message uses
`json.dumps(data)` with its default parameters (line 345: separators
", " and ": ", ensure_ascii=True). The transmitted body is produced by
httpx for `client.post(url, json=data)`: since httpx 0.26 its
encode_json serializes with ensure_ascii=False and the compact
separators "," and ":" (httpx._content.encode_json), and the
repository pins no httpx version, so the service runs with the compact
serialization. Both are embedded below. -/

def hex4 (n : Nat) : List Char :=
  [hexChar (n / 4096 % 16), hexChar (n / 256 % 16),
   hexChar (n / 16 % 16), hexChar (n % 16)]

/-- One character under json.dumps default (ensure_ascii) escaping. -/
def escChar (c : Char) : List Char :=
  let n := c.toNat
  if c == '"' then ['\\', '"']
  else if c == '\\' then ['\\', '\\']
  else if n == 10 then ['\\', 'n']
  else if n == 9 then ['\\', 't']
  else if n == 13 then ['\\', 'r']
  else if n == 8 then ['\\', 'b']
  else if n == 12 then ['\\', 'f']
  else if n < 32 || 126 < n then
    if n < 65536 then '\\' :: 'u' :: hex4 n
    else
      let m := n - 65536
      ('\\' :: 'u' :: hex4 (55296 + m / 1024)) ++
        ('\\' :: 'u' :: hex4 (56320 + m % 1024))
  else [c]

def dumpStr (s : String) : String :=
  "\"" ++ String.mk ((s.data.map escChar).flatten) ++ "\""

mutual

/-- json.dumps with the default separators (", " and ": "). -/
def dumpVal : PyVal → String
  | .str s => dumpStr s
  | .int n => toString n
  | .bool b => if b then "true" else "false"
  | .none => "null"
  | .dict d => "\x7b" ++ dumpEntries d ++ "\x7d"
  | .list l => "[" ++ dumpItems l ++ "]"

def dumpEntries : PyDict → String
  | .nil => ""
  | .cons k v .nil => dumpStr k ++ ": " ++ dumpVal v
  | .cons k v rest => dumpStr k ++ ": " ++ dumpVal v ++ ", " ++ dumpEntries rest

def dumpItems : PyList → String
  | .nil => ""
  | .cons v .nil => dumpVal v
  | .cons v rest => dumpVal v ++ ", " ++ dumpItems rest

end

def pyJsonDumps (v : PyVal) : String := dumpVal v

/-- One character under ensure_ascii=False escaping: only the quote,
the backslash and the control characters below 0x20 are escaped; every
other character, ASCII or not, is emitted literally. -/
def escCharNA (c : Char) : List Char :=
  let n := c.toNat
  if c == '"' then ['\\', '"']
  else if c == '\\' then ['\\', '\\']
  else if n == 10 then ['\\', 'n']
  else if n == 9 then ['\\', 't']
  else if n == 13 then ['\\', 'r']
  else if n == 8 then ['\\', 'b']
  else if n == 12 then ['\\', 'f']
  else if n < 32 then '\\' :: 'u' :: hex4 n
  else [c]

def dumpStrNA (s : String) : String :=
  "\"" ++ String.mk ((s.data.map escCharNA).flatten) ++ "\""

mutual

/-- json.dumps with ensure_ascii=False and separators "," and ":": the
serialization httpx (0.26 and later) applies to the `json=` argument
of client.post. -/
def dumpValC : PyVal → String
  | .str s => dumpStrNA s
  | .int n => toString n
  | .bool b => if b then "true" else "false"
  | .none => "null"
  | .dict d => "\x7b" ++ dumpEntriesC d ++ "\x7d"
  | .list l => "[" ++ dumpItemsC l ++ "]"

def dumpEntriesC : PyDict → String
  | .nil => ""
  | .cons k v .nil => dumpStrNA k ++ ":" ++ dumpValC v
  | .cons k v rest => dumpStrNA k ++ ":" ++ dumpValC v ++ "," ++ dumpEntriesC rest

def dumpItemsC : PyList → String
  | .nil => ""
  | .cons v .nil => dumpValC v
  | .cons v rest => dumpValC v ++ "," ++ dumpItemsC rest

end

/-- The body httpx transmits for `client.post(url, json=data)`:
`json.dumps(data, ensure_ascii=False, separators=(",", ":"),
allow_nan=False).encode("utf-8")` per httpx._content.encode_json in
every httpx release since 0.26 (the dependency is unpinned). -/
def httpxEncodeJson (d : PyDict) : String := dumpValC (PyVal.dict d)

/-! ## Audit sink (log_communication, lines 373-398) -/

/-- A VendorCommunication row as created by log_communication. The
database-generated id and created_at timestamp are outside the model. -/
structure AuditRecord where
  request_id : Option String
  direction : String
  message_type : String
  payload : PyDict
  hmac_signature : Option String
  ip_address : Option String
  processed : Bool

/-- Embedding of `log_communication`: append one record, processed=False.
-/
def log_communication (db : List AuditRecord)
    (direction message_type : String) (payload : PyDict)
    (request_id : Option String) (hmac_signature ip_address : Option String) :
    List AuditRecord :=
  db ++ [⟨request_id, direction, message_type, payload,
    hmac_signature, ip_address, false⟩]

/-! ## Outbound Relay Client (forward_to_vendor, lines 333-371) -/

/-- The outbound HTTP request assembled by forward_to_vendor: URL,
headers and the serialized body httpx sends for `json=data`. -/
structure VendorRequest where
  url : String
  apiKey : String
  contentType : String
  timestampHeader : String
  signatureHeader : String
  body : String

/-- Embedding of `forward_to_vendor` (lines 333-357): sign
`str(timestamp) + "." + json.dumps(data)` (default json.dumps, line
345) and attach X-Timestamp / X-Signature / X-API-Key headers. The
body field is the byte sequence httpx transmits for `json=data`, which
httpx 0.26 and later produce with ensure_ascii=False and compact
separators — a different serialization than the one signed. The
vendor's response and its error translation are outside this model. -/
def forward_to_vendor (secret apiKey baseUrl endpoint : String)
    (data : PyDict) (now : Nat) : VendorRequest :=
  let ts := toString now
  let message := ts ++ "." ++ pyJsonDumps (PyVal.dict data)
  let signature := hexDigest (hmacSha256 (utf8Bytes secret) (utf8Bytes message))
  ⟨baseUrl ++ "/" ++ endpoint, apiKey, "application/json", ts, signature,
    httpxEncodeJson data⟩

/-! ## Inbound and outbound handlers (lines 407-496)

FastAPI resolves the Depends parameters of a handler in their
declaration order and short-circuits on the first raised HTTPException;
in receive_seo_report and receive_publish_notification the order is
verify_hmac then verify_ip_allowlist, after which the handler body runs.
The embeddings sequence the guards in exactly that order. -/

/-- Python literal comparison of the jwt claim value against the task's
sandbox_id string (`!=` between a non-str value and a str is True). -/
def pyStrEq : PyVal → String → Bool
  | .str t, s => t == s
  | _, _ => false

/-- The SeoTask pydantic model. -/
structure SeoTask where
  request_id : String
  sandbox_id : String
  task_type : String
  title : String
  description : String
  priority : String
  deadline : Option String
  details : PyDict

/-- `task.dict()`: the declared fields in declaration order. -/
def seoTaskToDict (t : SeoTask) : PyDict :=
  .cons "request_id" (.str t.request_id)
    (.cons "sandbox_id" (.str t.sandbox_id)
      (.cons "task_type" (.str t.task_type)
        (.cons "title" (.str t.title)
          (.cons "description" (.str t.description)
            (.cons "priority" (.str t.priority)
              (.cons "deadline"
                (match t.deadline with
                 | some d => PyVal.str d
                 | Option.none => PyVal.none)
                (.cons "details" (.dict t.details) .nil)))))))

/-- Embedding of the POST /vendor/seo/task handler (lines 407-440):
verify the bearer token, reject a sandbox mismatch with 403, log the
outbound communication, forward to the vendor. -/
def submit_seo_task (decode : String → Except String PyDict)
    (authorization : String) (task : SeoTask)
    (secret apiKey baseUrl : String) (now : Nat) (db : List AuditRecord) :
    Except HttpError (List AuditRecord × VendorRequest) :=
  match verify_internal_jwt decode authorization with
  | Except.error e => Except.error e
  | Except.ok payload =>
    if pyStrEq ((pyLookup payload "sandbox_id").getD PyVal.none)
        task.sandbox_id then
      let db1 := log_communication db "outbound" "task" (seoTaskToDict task)
        (some task.request_id) Option.none Option.none
      Except.ok
        (db1, forward_to_vendor secret apiKey baseUrl "tasks"
          (seoTaskToDict task) now)
    else Except.error ⟨403, "Sandbox ID mismatch"⟩

/-- `report.request_id` (a required str field of the pydantic model). -/
def lookupRequestId (d : PyDict) : Option String :=
  match pyLookup d "request_id" with
  | some (PyVal.str s) => some s
  | _ => Option.none

/-- Outcome of a successful inbound handler: the success response, the
audit log, and the sanitized payload computed by the handler. -/
structure InboundResult where
  success : Bool
  db : List AuditRecord
  sanitized : PyDict

/-- Embedding of the POST /vendor/seo/report handler (lines 442-468):
verify_hmac, then verify_ip_allowlist (FastAPI dependency declaration
order), then log the raw report payload as an inbound audit record and
compute the sanitized report. -/
def receive_seo_report (secret : String) (nets : List IPv4Net)
    (signatureHeader timestampHeader rawBody : String) (now : Int)
    (clientIp : String) (report : PyDict) (db : List AuditRecord) :
    Except HttpError InboundResult :=
  match verify_hmac secret signatureHeader timestampHeader rawBody now with
  | Except.error e => Except.error e
  | Except.ok _ =>
    match verify_ip_allowlist clientIp nets with
    | Except.error e => Except.error e
    | Except.ok _ =>
      let db1 := log_communication db "inbound" "report" report
        (lookupRequestId report) (some signatureHeader) (some clientIp)
      Except.ok ⟨true, db1, sanitize_vendor_data report⟩

/-- Embedding of the POST /vendor/seo/publish handler (lines 470-496):
same guard sequence, message_type "publish". -/
def receive_publish_notification (secret : String) (nets : List IPv4Net)
    (signatureHeader timestampHeader rawBody : String) (now : Int)
    (clientIp : String) (notification : PyDict) (db : List AuditRecord) :
    Except HttpError InboundResult :=
  match verify_hmac secret signatureHeader timestampHeader rawBody now with
  | Except.error e => Except.error e
  | Except.ok _ =>
    match verify_ip_allowlist clientIp nets with
    | Except.error e => Except.error e
    | Except.ok _ =>
      let db1 := log_communication db "inbound" "publish" notification
        (lookupRequestId notification) (some signatureHeader) (some clientIp)
      Except.ok ⟨true, db1, sanitize_vendor_data notification⟩

/-- A concrete report whose details carry a vendor marker key. -/
def exReport : PyDict :=
  .cons "request_id" (.str "r1")
    (.cons "details"
      (PyVal.dict (.cons "customerscout_id" (.str "cs-1") .nil)) .nil)

/-- A concrete task bound to sandbox "T2". -/
def exTask : SeoTask :=
  ⟨"r1", "T2", "page", "t", "d", "medium", Option.none, .nil⟩

/-- A decode outcome representing a valid token bound to sandbox "T1". -/
def decodeOkT1 : String → Except String PyDict :=
  fun _ => Except.ok (.cons "sandbox_id" (.str "T1") .nil)

/-- A decode outcome representing a token that fails validation. -/
def decodeFail : String → Except String PyDict :=
  fun _ => Except.error "Signature verification failed"

/-- A decode outcome representing a valid token without a sandbox_id
claim. -/
def decodeNoSandbox : String → Except String PyDict :=
  fun _ => Except.ok (.cons "sub" (.str "123") .nil)


/-! ## Heap model of sanitize_vendor_data (frame property)

Python dicts and lists are mutable objects; `sanitized = data.copy()` is
a shallow copy sharing the nested references. To state that
sanitize_vendor_data never mutates the caller's payload, the function is
re-embedded over an explicit heap: dict objects and list objects live in
two stores addressed by position, and every Python operation of the
source (copy, del, key assignment, list comprehension allocation) acts on
that heap. All recursion is fuel-indexed so every function is structural
and kernel-evaluable; payloads are tree-shaped wire data, so a fuel
bound exists (any fuel sufficient to read the payload back as a tree). -/

/-- A heap value: a scalar, a reference to a dict object, or a reference
to a list object. -/
inductive HV : Type where
  | hstr (s : String)
  | hint (n : Int)
  | hbool (b : Bool)
  | hnone
  | dref (a : Nat)
  | lref (i : Nat)
deriving DecidableEq

/-- The store: dict objects (ordered key-value entries) and list
objects. -/
structure Heap where
  dicts : List (List (String × HV))
  lists : List (List HV)
deriving DecidableEq

/-- Python `del sanitized[key]`. -/
def delKey (entries : List (String × HV)) (k : String) :
    List (String × HV) :=
  entries.filter fun e => !(e.1 == k)

/-- Python `sanitized[key] = v`: update in place if the key is present
(keeping its position), append otherwise. -/
def setKey (entries : List (String × HV)) (k : String) (v : HV) :
    List (String × HV) :=
  if entries.any fun e => e.1 == k then
    entries.map fun e => if e.1 == k then (k, v) else e
  else entries ++ [(k, v)]

def isDref : HV → Bool
  | .dref _ => true
  | _ => false

mutual

/-- Heap-level sanitize_vendor_data: read the dict at `a`, allocate the
shallow copy, then process the snapshot of its items, mutating only the
copy. Returns the final heap and the address of the copy. -/
def sanHeap : Nat → Heap → Nat → Option (Heap × Nat)
  | 0, _, _ => Option.none
  | fuel+1, heap, a =>
    heap.dicts[a]?.bind fun entries =>
      (sanEntries fuel ⟨heap.dicts ++ [entries], heap.lists⟩
        heap.dicts.length entries).map fun h2 => (h2, heap.dicts.length)

/-- The `for key, value in list(sanitized.items())` loop over the
snapshot. -/
def sanEntries : Nat → Heap → Nat → List (String × HV) → Option Heap
  | 0, _, _, _ => Option.none
  | _+1, heap, _, [] => some heap
  | fuel+1, heap, c, (k, v) :: rest =>
    (sanEntry fuel heap c k v).bind fun h2 => sanEntries fuel h2 c rest

/-- One loop iteration: del on a marker key (whatever the value is); an
in-place replace for a string; a recursively sanitized fresh object for a
dict reference; a fresh list of sanitized elements for an all-dict list
reference; a no-op otherwise. Only the copy at `c` and freshly allocated
objects are ever written. -/
def sanEntry : Nat → Heap → Nat → String → HV → Option Heap
  | 0, _, _, _, _ => Option.none
  | _+1, heap, c, k, HV.hstr s =>
    if isVendorKey k then
      some ⟨heap.dicts.set c (delKey (heap.dicts.getD c []) k), heap.lists⟩
    else
      some ⟨heap.dicts.set c
        (setKey (heap.dicts.getD c []) k (.hstr (pyReplaceCS s))),
        heap.lists⟩
  | fuel+1, heap, c, k, HV.dref a =>
    if isVendorKey k then
      some ⟨heap.dicts.set c (delKey (heap.dicts.getD c []) k), heap.lists⟩
    else
      (sanHeap fuel heap a).map fun pr =>
        ⟨pr.1.dicts.set c (setKey (pr.1.dicts.getD c []) k (.dref pr.2)),
          pr.1.lists⟩
  | fuel+1, heap, c, k, HV.lref li =>
    if isVendorKey k then
      some ⟨heap.dicts.set c (delKey (heap.dicts.getD c []) k), heap.lists⟩
    else
      heap.lists[li]?.bind fun items =>
        if items.all isDref then
          (sanItems fuel heap items).map fun pr =>
            ⟨pr.1.dicts.set c
              (setKey (pr.1.dicts.getD c []) k (.lref pr.1.lists.length)),
              pr.1.lists ++ [pr.2]⟩
        else some heap
  | _+1, heap, c, k, _ =>
    if isVendorKey k then
      some ⟨heap.dicts.set c (delKey (heap.dicts.getD c []) k), heap.lists⟩
    else some heap

/-- The `[sanitize_vendor_data(item) for item in value]` comprehension at
heap level (non-dict items are kept as-is; under the all-dict guard that
branch is unreachable). -/
def sanItems : Nat → Heap → List HV → Option (Heap × List HV)
  | 0, _, _ => Option.none
  | _+1, heap, [] => some (heap, [])
  | fuel+1, heap, HV.dref a :: rest =>
    (sanHeap fuel heap a).bind fun pr =>
      (sanItems fuel pr.1 rest).map fun pr2 =>
        (pr2.1, HV.dref pr.2 :: pr2.2)
  | fuel+1, heap, x :: rest =>
    (sanItems fuel heap rest).map fun pr2 => (pr2.1, x :: pr2.2)

end

mutual

/-- Fuel-indexed readback of a dict object as a pure tree. The fuel
discipline mirrors sanHeap so that fuel sufficient for reading is
sufficient for sanitizing. -/
def readAddr : Nat → Heap → Nat → Option PyDict
  | 0, _, _ => Option.none
  | fuel+1, heap, a =>
    heap.dicts[a]?.bind fun entries => readEntries fuel heap entries

def readEntries : Nat → Heap → List (String × HV) → Option PyDict
  | 0, _, _ => Option.none
  | _+1, _, [] => some .nil
  | fuel+1, heap, (k, v) :: rest =>
    (readHV fuel heap v).bind fun pv =>
      (readEntries fuel heap rest).map fun d => .cons k pv d

def readHV : Nat → Heap → HV → Option PyVal
  | 0, _, _ => Option.none
  | _+1, _, HV.hstr s => some (.str s)
  | _+1, _, HV.hint n => some (.int n)
  | _+1, _, HV.hbool b => some (.bool b)
  | _+1, _, HV.hnone => some PyVal.none
  | fuel+1, heap, HV.dref a => (readAddr fuel heap a).map PyVal.dict
  | fuel+1, heap, HV.lref i =>
    heap.lists[i]?.bind fun items =>
      (readItems fuel heap items).map PyVal.list

def readItems : Nat → Heap → List HV → Option PyList
  | 0, _, _ => Option.none
  | _+1, _, [] => some .nil
  | fuel+1, heap, HV.dref a :: rest =>
    (readAddr fuel heap a).bind fun d =>
      (readItems fuel heap rest).map fun l => .cons (.dict d) l
  | fuel+1, heap, x :: rest =>
    (readHV fuel heap x).bind fun pv =>
      (readItems fuel heap rest).map fun l => .cons pv l

end

/-- A heap value only references objects below the given bounds. -/
def hvClosed (nd nl : Nat) : HV → Bool
  | .dref a => decide (a < nd)
  | .lref i => decide (i < nl)
  | _ => true

def entriesClosed (nd nl : Nat) (entries : List (String × HV)) : Bool :=
  entries.all fun e => hvClosed nd nl e.2

def itemsClosed (nd nl : Nat) (items : List HV) : Bool :=
  items.all (hvClosed nd nl)

/-- Every object in the heap only references objects in the heap. -/
def heapClosed (heap : Heap) : Bool :=
  (heap.dicts.all fun es =>
    entriesClosed heap.dicts.length heap.lists.length es) &&
  (heap.lists.all fun its =>
    itemsClosed heap.dicts.length heap.lists.length its)

/-- A concrete one-dict heap carrying vendor-marked data. -/
def heapEx : Heap :=
  ⟨[[("vendor_id", HV.hstr "v"), ("name", HV.hstr "CustomerScout")]], []⟩

/-- The tree read back from address 0 of heapEx. -/
def treeEx : PyDict :=
  .cons "vendor_id" (PyVal.str "v")
    (.cons "name" (PyVal.str "CustomerScout") .nil)


/-- Heap extension: all existing objects preserved, new ones appended. -/
def HeapLE (h h' : Heap) : Prop :=
  h.dicts.length ≤ h'.dicts.length ∧
  (∀ i, i < h.dicts.length → h'.dicts[i]? = h.dicts[i]?) ∧
  h.lists.length ≤ h'.lists.length ∧
  (∀ j, j < h.lists.length → h'.lists[j]? = h.lists[j]?)

/-- Heap extension except at one dict address (the copy under
construction). -/
def HeapLEx (c : Nat) (h h' : Heap) : Prop :=
  h.dicts.length ≤ h'.dicts.length ∧
  (∀ i, i < h.dicts.length → i ≠ c → h'.dicts[i]? = h.dicts[i]?) ∧
  h.lists.length ≤ h'.lists.length ∧
  (∀ j, j < h.lists.length → h'.lists[j]? = h.lists[j]?)

/-- All objects below the bounds are unchanged between two heaps. -/
def PreservesBelow (N L : Nat) (h h' : Heap) : Prop :=
  (∀ i, i < N → h'.dicts[i]? = h.dicts[i]?) ∧
  (∀ j, j < L → h'.lists[j]? = h.lists[j]?)

/-- Every object below the bounds only references objects below the
bounds. -/
def ClosedBelow (N L : Nat) (heap : Heap) : Prop :=
  (∀ i, i < N → ∀ entries, heap.dicts[i]? = some entries →
    entriesClosed N L entries = true) ∧
  (∀ j, j < L → ∀ items, heap.lists[j]? = some items →
    itemsClosed N L items = true)

/-! ## Theorems about the replace semantics -/

theorem csPat_eq_data : csPat = "CustomerScout".data := by decide

theorem rylieStr_eq_data : rylieStr = "Rylie SEO".data := by decide

theorem isPre_csPat_cons_ne {c : Char} (h : c ≠ 'C') (l : List Char) :
    isPre csPat (c :: l) = false := by
  simp [csPat, isPre]
  intro hc
  exact absurd hc.symm h

theorem hasSub_cons_ne {c : Char} (h : c ≠ 'C') (l : List Char) :
    hasSub csPat (c :: l) = hasSub csPat l := by
  simp [hasSub, isPre_csPat_cons_ne h]

/-- Prepending the replacement string never creates an occurrence of the
pattern: none of the characters of "Rylie SEO" is 'C'. -/
theorem hasSub_rylie_append (t : List Char) :
    hasSub csPat (rylieStr ++ t) = hasSub csPat t := by
  simp only [rylieStr, List.cons_append, List.nil_append]
  rw [hasSub_cons_ne (by decide), hasSub_cons_ne (by decide),
    hasSub_cons_ne (by decide), hasSub_cons_ne (by decide),
    hasSub_cons_ne (by decide), hasSub_cons_ne (by decide),
    hasSub_cons_ne (by decide), hasSub_cons_ne (by decide),
    hasSub_cons_ne (by decide)]

/-- A pattern fragment that avoids 'R' and survives as a prefix of the
replaced string was already a prefix of the original string: a prefix
match cannot extend into a replaced block, whose first character is 'R'. -/
theorem isPre_replCS_of_no_R :
    ∀ (t q : List Char), ('R' ∈ q → False) →
      isPre q (replCS t) = true → isPre q t = true := by
  intro t
  induction t with
  | nil =>
    intro q _ h
    simp [replCS] at h
    cases q with
    | nil => rfl
    | cons x xs => simp [isPre] at h
  | cons c rest ih =>
    intro q hR h
    by_cases hm : isPre csPat (c :: rest) = true
    · rw [replCS, if_pos hm] at h
      cases q with
      | nil => rfl
      | cons x xs =>
        exfalso
        simp only [rylieStr, List.cons_append, isPre, Bool.and_eq_true,
          beq_iff_eq] at h
        exact hR (h.1 ▸ List.mem_cons_self _ _)
    · rw [replCS, if_neg hm] at h
      cases q with
      | nil => rfl
      | cons x xs =>
        simp only [isPre, Bool.and_eq_true] at h ⊢
        exact ⟨h.1, ih xs (fun hx => hR (List.mem_cons_of_mem _ hx)) h.2⟩

/-- Core redaction lemma: the output of the replace never contains the
vendor display name. -/
theorem hasSub_replCS (t : List Char) : hasSub csPat (replCS t) = false := by
  induction t using replCS.induct with
  | case1 => simp [replCS, hasSub, csPat, isPre]
  | case2 c rest hm ih =>
    rw [replCS, if_pos hm, hasSub_rylie_append]
    exact ih
  | case3 c rest hm ih =>
    rw [replCS, if_neg hm]
    cases hq : isPre csPat (c :: replCS rest) with
    | false => simpa [hasSub, hq] using ih
    | true =>
      exfalso
      have hc : c = 'C' := by
        simp only [csPat, isPre, Bool.and_eq_true, beq_iff_eq] at hq
        exact hq.1.symm
      have htail :
          isPre ['u', 's', 't', 'o', 'm', 'e', 'r', 'S', 'c', 'o', 'u', 't']
            (replCS rest) = true := by
        simp only [csPat, isPre, Bool.and_eq_true] at hq
        exact hq.2
      have := isPre_replCS_of_no_R rest
        ['u', 's', 't', 'o', 'm', 'e', 'r', 'S', 'c', 'o', 'u', 't']
        (by decide) htail
      have : isPre csPat (c :: rest) = true := by
        simp only [csPat, isPre, hc, Bool.and_eq_true, beq_iff_eq]
        refine ⟨?_, this⟩
        trivial
      exact hm this

/-- A pattern-free string is a fixed point of the replace. -/
theorem replCS_of_no_sub :
    ∀ t : List Char, hasSub csPat t = false → replCS t = t := by
  intro t
  induction t with
  | nil => intro _; simp [replCS]
  | cons c rest ih =>
    intro h
    simp only [hasSub, Bool.or_eq_false_iff] at h
    rw [replCS, if_neg (by simp [h.1]), ih h.2]

/-- The replace is idempotent. -/
theorem replCS_idem (t : List Char) : replCS (replCS t) = replCS t :=
  replCS_of_no_sub _ (hasSub_replCS t)

/-! ## Theorems about the redaction engine -/

theorem allDictB_sanitizeItems :
    ∀ l : PyList, allDictB l = true → allDictB (sanitizeItems l) = true
  | .nil => fun _ => rfl
  | .cons v rest => fun h => by
    simp only [allDictB, Bool.and_eq_true] at h
    cases v with
    | dict d =>
      simp [sanitizeItems, allDictB, isDictVal,
        allDictB_sanitizeItems rest h.2]
    | str s => simp [isDictVal] at h
    | int n => simp [isDictVal] at h
    | bool b => simp [isDictVal] at h
    | none => simp [isDictVal] at h
    | list l2 => simp [isDictVal] at h

mutual

theorem sanD_idem : ∀ d : PyDict,
    sanitize_vendor_data (sanitize_vendor_data d) = sanitize_vendor_data d
  | .nil => rfl
  | .cons k v rest => by
    by_cases hk : isVendorKey k = true
    · simp [sanitize_vendor_data, hk, sanD_idem rest]
    · simp [sanitize_vendor_data, hk, sanV_idem v, sanD_idem rest]

theorem sanV_idem : ∀ v : PyVal,
    sanitizeValue (sanitizeValue v) = sanitizeValue v
  | .str s => by simp [sanitizeValue, pyReplaceCS, replCS_idem]
  | .dict d => by simp [sanitizeValue, sanD_idem d]
  | .list l => by
    by_cases h : allDictB l = true
    · simp [sanitizeValue, h, allDictB_sanitizeItems l h, sanL_idem l]
    · simp [sanitizeValue, h]
  | .int n => rfl
  | .bool b => rfl
  | .none => rfl

theorem sanL_idem : ∀ l : PyList,
    sanitizeItems (sanitizeItems l) = sanitizeItems l
  | .nil => rfl
  | .cons v rest => by
    cases v with
    | dict d => simp [sanitizeItems, sanD_idem d, sanL_idem rest]
    | str s => simp [sanitizeItems, sanL_idem rest]
    | int n => simp [sanitizeItems, sanL_idem rest]
    | bool b => simp [sanitizeItems, sanL_idem rest]
    | none => simp [sanitizeItems, sanL_idem rest]
    | list l2 => simp [sanitizeItems, sanL_idem rest]

end

mutual

theorem sanD_ok : ∀ d : PyDict, sanOkDict (sanitize_vendor_data d) = true
  | .nil => rfl
  | .cons k v rest => by
    by_cases hk : isVendorKey k = true
    · simp [sanitize_vendor_data, hk, sanD_ok rest]
    · simp [sanitize_vendor_data, hk, sanOkDict, sanV_ok v, sanD_ok rest]

theorem sanV_ok : ∀ v : PyVal, sanOkVal (sanitizeValue v) = true
  | .str s => by
    simp [sanitizeValue, sanOkVal, strHasCS, pyReplaceCS, hasSub_replCS]
  | .dict d => by simp [sanitizeValue, sanOkVal, sanD_ok d]
  | .list l => by
    by_cases h : allDictB l = true
    · simp [sanitizeValue, h, sanOkVal, allDictB_sanitizeItems l h, sanL_ok l]
    · simp [sanitizeValue, h, sanOkVal]
  | .int n => rfl
  | .bool b => rfl
  | .none => rfl

theorem sanL_ok : ∀ l : PyList, sanOkItems (sanitizeItems l) = true
  | .nil => rfl
  | .cons v rest => by
    cases v with
    | dict d => simp [sanitizeItems, sanOkItems, sanD_ok d, sanL_ok rest]
    | str s => simp [sanitizeItems, sanOkItems, sanL_ok rest]
    | int n => simp [sanitizeItems, sanOkItems, sanL_ok rest]
    | bool b => simp [sanitizeItems, sanOkItems, sanL_ok rest]
    | none => simp [sanitizeItems, sanOkItems, sanL_ok rest]
    | list l2 => simp [sanitizeItems, sanOkItems, sanL_ok rest]

end

/-- Claim C7: the Identity Redaction Engine is idempotent
(re-redacting the output is a no-op), and its output contains no key
with a vendor-identity marker and no occurrence of the vendor display
name in string values at any nesting depth reached by the traversal. -/
theorem redaction_idempotent_and_clean (d : PyDict) :
    sanitize_vendor_data (sanitize_vendor_data d) = sanitize_vendor_data d ∧
    sanOkDict (sanitize_vendor_data d) = true :=
  ⟨sanD_idem d, sanD_ok d⟩

theorem mem_sanitize_of_mem :
    ∀ (d : PyDict) (k : String) (v : PyVal),
      (k, v) ∈ d.toList → isVendorKey k = false →
      (k, sanitizeValue v) ∈ (sanitize_vendor_data d).toList
  | .nil, k, v => fun hmem _ => by simp [PyDict.toList] at hmem
  | .cons k' v' rest, k, v => fun hmem hk => by
    simp only [PyDict.toList, List.mem_cons] at hmem
    by_cases hk' : isVendorKey k' = true
    · cases hmem with
      | inl h =>
        exfalso
        simp only [Prod.mk.injEq] at h
        rw [← h.1] at hk'
        rw [hk] at hk'
        exact Bool.false_ne_true hk'
      | inr h =>
        have := mem_sanitize_of_mem rest k v h hk
        simpa [sanitize_vendor_data, hk'] using this
    · cases hmem with
      | inl h =>
        simp only [Prod.mk.injEq] at h
        obtain ⟨h1, h2⟩ := h
        subst h1
        subst h2
        simp [sanitize_vendor_data, hk', PyDict.toList]
      | inr h =>
        have := mem_sanitize_of_mem rest k v h hk
        simp only [sanitize_vendor_data, if_neg hk', PyDict.toList,
          List.mem_cons]
        exact Or.inr this

/-- Claim C10: a list with at least one non-dict element is left entirely
unchanged by the redaction engine (its dict elements included), and the
entry carrying it survives verbatim in the sanitized dict. -/
theorem mixed_list_passes_through_unredacted
    (d : PyDict) (k : String) (l : PyList)
    (hmem : (k, PyVal.list l) ∈ d.toList) (hk : isVendorKey k = false)
    (hl : allDictB l = false) :
    sanitizeValue (PyVal.list l) = PyVal.list l ∧
    (k, PyVal.list l) ∈ (sanitize_vendor_data d).toList := by
  have hval : sanitizeValue (PyVal.list l) = PyVal.list l := by
    simp [sanitizeValue, hl]
  refine ⟨hval, ?_⟩
  have := mem_sanitize_of_mem d k (PyVal.list l) hmem hk
  rwa [hval] at this

/-- Concrete input for the mixed-list claim: a dict whose "items" list
mixes a vendor-marked dict with a scalar. -/
theorem mixed_list_witness :
    isVendorKey "items" = false ∧ allDictB exMixedList = false ∧
    itemsHaveMarkerDeep exMixedList = true ∧
    sanitizeValue (PyVal.list exMixedList) = PyVal.list exMixedList ∧
    ("items", PyVal.list exMixedList) ∈
      (sanitize_vendor_data exMixedDict).toList :=
  ⟨by decide, by decide, by decide,
   (mixed_list_passes_through_unredacted exMixedDict "items" exMixedList
     (by simp [exMixedDict, PyDict.toList]) (by decide) (by decide)).1,
   (mixed_list_passes_through_unredacted exMixedDict "items" exMixedList
     (by simp [exMixedDict, PyDict.toList]) (by decide) (by decide)).2⟩

/-! ## Theorems about the Signature Codec and Freshness Guard -/

/-- Claim C1: verification accepts exactly the correct signature — for
every secret, timestamp and body the signature produced by sign verifies,
and any signature differing from the correct hex digest fails
verification, with the verify_hmac dependency rejecting it as 401
"Invalid signature". -/
theorem signature_verification_exact (secret tsHeader body : String) :
    verifySig secret tsHeader body (sign secret tsHeader body) = true ∧
    ∀ s' : String, s' ≠ sign secret tsHeader body →
      verifySig secret tsHeader body s' = false ∧
      ∀ now : Int, verify_hmac secret s' tsHeader body now =
        Except.error ⟨401, "Invalid signature"⟩ := by
  constructor
  · simp [verifySig, compare_digest]
  · intro s' hs
    have hb : (sign secret tsHeader body == s') = false :=
      beq_eq_false_iff_ne.mpr (Ne.symm hs)
    constructor
    · simp [verifySig, compare_digest, hb]
    · intro now
      simp [verify_hmac, compare_digest, hb]

/-- Concrete instance of the signature claim, with the wrong signature
"deadbeef". -/
theorem signature_verification_witness :
    verifySig "k" "100" "b" (sign "k" "100" "b") = true ∧
    verifySig "k" "100" "b" "deadbeef" = false ∧
    verify_hmac "k" "deadbeef" "100" "b" 100 =
      Except.error ⟨401, "Invalid signature"⟩ := by
  have hs : "deadbeef" ≠ sign "k" "100" "b" := by decide
  exact ⟨(signature_verification_exact "k" "100" "b").1,
    ((signature_verification_exact "k" "100" "b").2 "deadbeef" hs).1,
    ((signature_verification_exact "k" "100" "b").2 "deadbeef" hs).2 100⟩

/-- Claim C4: the Freshness Guard flags unparseable timestamps as
malformed, rejects clock differences strictly above 300 seconds as
expired, accepts a difference of exactly 300 (inclusive boundary), and
in verify_hmac a non-ok freshness status surfaces as a 401. -/
theorem freshness_window (tsHeader : String) (now : Int) :
    (pyIntOfString tsHeader = Option.none →
      checkFreshness tsHeader now = FreshStatus.malformed) ∧
    (∀ t : Int, pyIntOfString tsHeader = some t →
      (300 < (now - t).natAbs →
        checkFreshness tsHeader now = FreshStatus.expired) ∧
      ((now - t).natAbs ≤ 300 →
        checkFreshness tsHeader now = FreshStatus.ok)) ∧
    (∀ secret body : String, checkFreshness tsHeader now ≠ FreshStatus.ok →
      ∃ d : String,
        verify_hmac secret (sign secret tsHeader body) tsHeader body now =
          Except.error ⟨401, d⟩) := by
  refine ⟨?_, ?_, ?_⟩
  · intro h
    simp [checkFreshness, h]
  · intro t ht
    constructor
    · intro hgt
      simp [checkFreshness, ht, hgt]
    · intro hle
      simp [checkFreshness, ht]
      omega
  · intro secret body hne
    cases hcf : checkFreshness tsHeader now with
    | ok => exact absurd hcf hne
    | expired =>
      exact ⟨"Expired timestamp", by simp [verify_hmac, compare_digest, hcf]⟩
    | malformed =>
      exact ⟨"Invalid timestamp format",
        by simp [verify_hmac, compare_digest, hcf]⟩

/-- Concrete instances of the freshness claim: unparseable header, a
301-second difference (rejected) and a 300-second difference (accepted).
-/
theorem freshness_witness :
    checkFreshness "abc" 0 = FreshStatus.malformed ∧
    checkFreshness "100" 401 = FreshStatus.expired ∧
    checkFreshness "100" 400 = FreshStatus.ok ∧
    ∃ d : String, verify_hmac "k" (sign "k" "abc" "b") "abc" "b" 0 =
      Except.error ⟨401, d⟩ :=
  ⟨(freshness_window "abc" 0).1 (by decide),
   ((freshness_window "100" 401).2.1 100 (by decide)).1 (by decide),
   ((freshness_window "100" 400).2.1 100 (by decide)).2 (by decide),
   (freshness_window "abc" 0).2.2 "k" "b" (by decide)⟩

/-! ## Theorems about the Network Provenance Guard -/

/-- Claim C5: loopback is always allowed regardless of the allowlist;
any other IP is allowed exactly when it parses as IPv4 and falls inside
at least one configured network, and an unparseable IP is denied. -/
theorem ip_allowlist_semantics (nets : List IPv4Net) :
    verify_ip_allowlist "127.0.0.1" nets = Except.ok true ∧
    verify_ip_allowlist "::1" nets = Except.ok true ∧
    ∀ ip : String, ip ≠ "127.0.0.1" → ip ≠ "::1" →
      (parseIPv4 ip = Option.none →
        verify_ip_allowlist ip nets = Except.error ⟨403, "Invalid IP format"⟩) ∧
      (∀ n : Nat, parseIPv4 ip = some n →
        (nets.any (ipInNet n) = true →
          verify_ip_allowlist ip nets = Except.ok true) ∧
        (nets.any (ipInNet n) = false →
          verify_ip_allowlist ip nets =
            Except.error ⟨403, "IP not in allowlist"⟩)) := by
  refine ⟨by simp [verify_ip_allowlist], by simp [verify_ip_allowlist], ?_⟩
  intro ip h1 h2
  have hb : (ip == "127.0.0.1" || ip == "::1") = false := by
    simp only [Bool.or_eq_false_iff, beq_eq_false_iff_ne]
    exact ⟨h1, h2⟩
  refine ⟨?_, ?_⟩
  · intro hp
    simp [verify_ip_allowlist, hb, hp]
  · intro n hp
    refine ⟨?_, ?_⟩
    · intro hany
      simp [verify_ip_allowlist, hb, hp, hany]
    · intro hany
      simp [verify_ip_allowlist, hb, hp, hany]

/-- Concrete instances of the allowlist claim: loopback with an empty
allowlist, 10.0.0.5 and 192.168.1.1 against 10.0.0.0/8, and an
unparseable address. -/
theorem ip_allowlist_witness :
    verify_ip_allowlist "127.0.0.1" [] = Except.ok true ∧
    verify_ip_allowlist "::1" [] = Except.ok true ∧
    verify_ip_allowlist "10.0.0.5" [⟨167772160, 8⟩] = Except.ok true ∧
    verify_ip_allowlist "192.168.1.1" [⟨167772160, 8⟩] =
      Except.error ⟨403, "IP not in allowlist"⟩ ∧
    verify_ip_allowlist "not-an-ip" [⟨167772160, 8⟩] =
      Except.error ⟨403, "Invalid IP format"⟩ :=
  ⟨(ip_allowlist_semantics []).1,
   (ip_allowlist_semantics []).2.1,
   (((ip_allowlist_semantics [⟨167772160, 8⟩]).2.2 "10.0.0.5" (by decide)
      (by decide)).2 167772165 (by decide)).1 (by decide),
   (((ip_allowlist_semantics [⟨167772160, 8⟩]).2.2 "192.168.1.1" (by decide)
      (by decide)).2 3232235777 (by decide)).2 (by decide),
   ((ip_allowlist_semantics [⟨167772160, 8⟩]).2.2 "not-an-ip" (by decide)
      (by decide)).1 (by decide)⟩

/-! ## Theorems about the Tenant Token Verifier and task submission -/

/-- Claim C6: a valid token bound to tenant T1 with a task naming a
different sandbox T2 is rejected 403 "Sandbox ID mismatch" (never 401);
401 is returned exactly for tokens that fail to decode or lack a
sandbox_id claim. -/
theorem tenant_binding (decode : String → Except String PyDict)
    (authorization : String) (task : SeoTask)
    (secret apiKey baseUrl : String) (now : Nat) (db : List AuditRecord) :
    (∀ (payload : PyDict) (T1 : String),
      decode (stripBearer authorization) = Except.ok payload →
      pyLookup payload "sandbox_id" = some (PyVal.str T1) →
      T1 ≠ task.sandbox_id →
      submit_seo_task decode authorization task secret apiKey baseUrl now db =
        Except.error ⟨403, "Sandbox ID mismatch"⟩) ∧
    (∀ e : String, decode (stripBearer authorization) = Except.error e →
      submit_seo_task decode authorization task secret apiKey baseUrl now db =
        Except.error ⟨401, "Invalid token: " ++ e⟩) ∧
    (∀ payload : PyDict,
      decode (stripBearer authorization) = Except.ok payload →
      pyLookup payload "sandbox_id" = Option.none →
      submit_seo_task decode authorization task secret apiKey baseUrl now db =
        Except.error ⟨401, "Invalid token: missing sandbox_id"⟩) := by
  refine ⟨?_, ?_, ?_⟩
  · intro payload T1 hdec hlook hne
    simp [submit_seo_task, verify_internal_jwt, hdec, hlook, pyStrEq, hne]
  · intro e hdec
    simp [submit_seo_task, verify_internal_jwt, hdec]
  · intro payload hdec hlook
    simp [submit_seo_task, verify_internal_jwt, hdec, hlook]

/-- Concrete instances of the tenant-binding claim: a T1-bound token
with a T2 task (403), a failing decode (401), and a claim set without
sandbox_id (401). -/
theorem tenant_binding_witness :
    submit_seo_task decodeOkT1 "Bearer tok" exTask "s" "key" "u" 100 [] =
      Except.error ⟨403, "Sandbox ID mismatch"⟩ ∧
    submit_seo_task decodeFail "Bearer tok" exTask "s" "key" "u" 100 [] =
      Except.error ⟨401, "Invalid token: Signature verification failed"⟩ ∧
    submit_seo_task decodeNoSandbox "Bearer tok" exTask "s" "key" "u" 100 [] =
      Except.error ⟨401, "Invalid token: missing sandbox_id"⟩ :=
  ⟨(tenant_binding decodeOkT1 "Bearer tok" exTask "s" "key" "u" 100 []).1
     (.cons "sandbox_id" (.str "T1") .nil) "T1" rfl rfl (by decide),
   (tenant_binding decodeFail "Bearer tok" exTask "s" "key" "u" 100 []).2.1
     "Signature verification failed" rfl,
   (tenant_binding decodeNoSandbox "Bearer tok" exTask "s" "key" "u" 100
     []).2.2 (.cons "sub" (.str "123") .nil) rfl rfl⟩

/-! ## Theorems about the Outbound Relay Client -/

/-- Claim C9 (code bug, general shape): for every outbound vendor
call, the X-Signature header is the HMAC over the DEFAULT json.dumps
serialization of the payload, while the transmitted body is the
compact httpx serialization — two different serializers; the theorem
below exhibits the divergence at a concrete payload. -/
theorem forward_signs_default_dumps
    (secret apiKey baseUrl endpoint : String) (data : PyDict) (now : Nat) :
    (forward_to_vendor secret apiKey baseUrl endpoint data now).signatureHeader =
      sign secret (toString now) (pyJsonDumps (PyVal.dict data)) ∧
    (forward_to_vendor secret apiKey baseUrl endpoint data now).body =
      httpxEncodeJson data ∧
    (forward_to_vendor secret apiKey baseUrl endpoint data now).timestampHeader =
      toString now :=
  ⟨rfl, rfl, rfl⟩

/-- Claim C9 (code bug): already for the one-entry payload mapping the
key "a" to 1, the serialization signed by forward_to_vendor (default
json.dumps) differs from the body transmitted to the vendor (httpx
compact encoding), and the X-Signature header is NOT the HMAC-SHA256
digest over the transmitted body — the signature covers a byte
sequence different from the one sent. -/
theorem outbound_signature_counterexample :
    (forward_to_vendor "s" "k" "u" "tasks"
        (.cons "a" (.int 1) .nil) 100).body ≠
      pyJsonDumps (PyVal.dict (.cons "a" (.int 1) .nil)) ∧
    (forward_to_vendor "s" "k" "u" "tasks"
        (.cons "a" (.int 1) .nil) 100).signatureHeader =
      sign "s" "100" (pyJsonDumps (PyVal.dict (.cons "a" (.int 1) .nil))) ∧
    (forward_to_vendor "s" "k" "u" "tasks"
        (.cons "a" (.int 1) .nil) 100).signatureHeader ≠
      sign "s" "100"
        (forward_to_vendor "s" "k" "u" "tasks"
          (.cons "a" (.int 1) .nil) 100).body :=
  ⟨by decide, rfl, by decide⟩

/-- The correct signature for secret "s", timestamp header "100" and raw
body "b" is not the string "deadbeef". -/
theorem deadbeef_ne_sign : "deadbeef" ≠ sign "s" "100" "b" := by decide

attribute [irreducible] sign

/-! ## Theorems about the inbound handler pipeline -/

theorem verify_hmac_cases (secret sH tH body : String) (now : Int) :
    verify_hmac secret sH tH body now =
      Except.error ⟨401, "Invalid signature"⟩ ∨
    verify_hmac secret sH tH body now =
      Except.error ⟨401, "Expired timestamp"⟩ ∨
    verify_hmac secret sH tH body now =
      Except.error ⟨401, "Invalid timestamp format"⟩ ∨
    verify_hmac secret sH tH body now = Except.ok true := by
  cases hc : compare_digest (sign secret tH body) sH with
  | false =>
    left
    unfold verify_hmac
    rw [hc]
    rfl
  | true =>
    cases hf : checkFreshness tH now with
    | ok =>
      right; right; right
      unfold verify_hmac
      rw [hc, hf]
      rfl
    | expired =>
      right; left
      unfold verify_hmac
      rw [hc, hf]
      rfl
    | malformed =>
      right; right; left
      unfold verify_hmac
      rw [hc, hf]
      rfl

theorem verify_hmac_error_401 (secret sH tH body : String) (now : Int)
    (e : HttpError)
    (h : verify_hmac secret sH tH body now = Except.error e) :
    e.status = 401 := by
  rcases verify_hmac_cases secret sH tH body now with hc | hc | hc | hc
  · injection hc.symm.trans h with h1
    rw [← h1]
  · injection hc.symm.trans h with h1
    rw [← h1]
  · injection hc.symm.trans h with h1
    rw [← h1]
  · exact Except.noConfusion (hc.symm.trans h)

theorem verify_hmac_ok_true (secret sH tH body : String) (now : Int)
    (b : Bool) (h : verify_hmac secret sH tH body now = Except.ok b) :
    b = true := by
  rcases verify_hmac_cases secret sH tH body now with hc | hc | hc | hc
  · exact Except.noConfusion (hc.symm.trans h)
  · exact Except.noConfusion (hc.symm.trans h)
  · exact Except.noConfusion (hc.symm.trans h)
  · injection hc.symm.trans h with h1
    exact h1.symm

theorem receive_report_hmac_err (secret : String) (nets : List IPv4Net)
    (sigH tsH rawBody : String) (now : Int) (clientIp : String)
    (payload : PyDict) (db : List AuditRecord) (e : HttpError)
    (he : verify_hmac secret sigH tsH rawBody now = Except.error e) :
    receive_seo_report secret nets sigH tsH rawBody now clientIp payload
      db = Except.error e := by
  unfold receive_seo_report
  rw [he]

theorem receive_publish_hmac_err (secret : String) (nets : List IPv4Net)
    (sigH tsH rawBody : String) (now : Int) (clientIp : String)
    (payload : PyDict) (db : List AuditRecord) (e : HttpError)
    (he : verify_hmac secret sigH tsH rawBody now = Except.error e) :
    receive_publish_notification secret nets sigH tsH rawBody now clientIp
      payload db = Except.error e := by
  unfold receive_publish_notification
  rw [he]

theorem receive_report_ip_err (secret : String) (nets : List IPv4Net)
    (sigH tsH rawBody : String) (now : Int) (clientIp : String)
    (payload : PyDict) (db : List AuditRecord) (c : Bool) (e2 : HttpError)
    (hok : verify_hmac secret sigH tsH rawBody now = Except.ok c)
    (hip : verify_ip_allowlist clientIp nets = Except.error e2) :
    receive_seo_report secret nets sigH tsH rawBody now clientIp payload
      db = Except.error e2 := by
  unfold receive_seo_report
  rw [hok, hip]

theorem receive_publish_ip_err (secret : String) (nets : List IPv4Net)
    (sigH tsH rawBody : String) (now : Int) (clientIp : String)
    (payload : PyDict) (db : List AuditRecord) (c : Bool) (e2 : HttpError)
    (hok : verify_hmac secret sigH tsH rawBody now = Except.ok c)
    (hip : verify_ip_allowlist clientIp nets = Except.error e2) :
    receive_publish_notification secret nets sigH tsH rawBody now clientIp
      payload db = Except.error e2 := by
  unfold receive_publish_notification
  rw [hok, hip]

theorem receive_report_ok (secret : String) (nets : List IPv4Net)
    (sigH tsH rawBody : String) (now : Int) (clientIp : String)
    (payload : PyDict) (db : List AuditRecord) (c c2 : Bool)
    (hok : verify_hmac secret sigH tsH rawBody now = Except.ok c)
    (hip : verify_ip_allowlist clientIp nets = Except.ok c2) :
    receive_seo_report secret nets sigH tsH rawBody now clientIp payload
      db = Except.ok ⟨true,
        log_communication db "inbound" "report" payload
          (lookupRequestId payload) (some sigH) (some clientIp),
        sanitize_vendor_data payload⟩ := by
  unfold receive_seo_report
  rw [hok, hip]

theorem receive_publish_ok (secret : String) (nets : List IPv4Net)
    (sigH tsH rawBody : String) (now : Int) (clientIp : String)
    (payload : PyDict) (db : List AuditRecord) (c c2 : Bool)
    (hok : verify_hmac secret sigH tsH rawBody now = Except.ok c)
    (hip : verify_ip_allowlist clientIp nets = Except.ok c2) :
    receive_publish_notification secret nets sigH tsH rawBody now clientIp
      payload db = Except.ok ⟨true,
        log_communication db "inbound" "publish" payload
          (lookupRequestId payload) (some sigH) (some clientIp),
        sanitize_vendor_data payload⟩ := by
  unfold receive_publish_notification
  rw [hok, hip]

theorem hmac_badsig : verify_hmac "s" "deadbeef" "100" "b" 100 =
    Except.error ⟨401, "Invalid signature"⟩ := by
  have hsig : compare_digest (sign "s" "100" "b") "deadbeef" = false :=
    beq_eq_false_iff_ne.mpr (Ne.symm deadbeef_ne_sign)
  unfold verify_hmac
  rw [hsig]
  rfl

theorem hmac_goodsig (secret tsH rawBody : String) (now : Int)
    (hfresh : checkFreshness tsH now = FreshStatus.ok) :
    verify_hmac secret (sign secret tsH rawBody) tsH rawBody now =
      Except.ok true := by
  have hsig : compare_digest (sign secret tsH rawBody)
      (sign secret tsH rawBody) = true := by
    simp [compare_digest]
  unfold verify_hmac
  rw [hsig, hfresh]
  rfl

/-- Claim C3 as stated is false: this request arrives from
192.168.1.1, which the (empty) allowlist rejects with 403, yet the
endpoint answers 401 "Invalid signature" because the verify_hmac
dependency is declared before verify_ip_allowlist and so runs first. -/
theorem guard_order_counterexample :
    verify_ip_allowlist "192.168.1.1" [] =
      Except.error ⟨403, "IP not in allowlist"⟩ ∧
    receive_seo_report "s" [] "deadbeef" "100" "b" 100 "192.168.1.1"
      exReport [] = Except.error ⟨401, "Invalid signature"⟩ :=
  ⟨rfl, receive_report_hmac_err "s" [] "deadbeef" "100" "b" 100
    "192.168.1.1" exReport [] ⟨401, "Invalid signature"⟩ hmac_badsig⟩

/-- Claim C3 amended: on the inbound vendor endpoints the Signature
Codec and Freshness Guard run before the Network Provenance Guard — a
verify_hmac failure is returned (as a 401) regardless of the source IP,
and a 403 can only be returned for requests whose signature and
timestamp already passed, in which case it is the allowlist rejection. -/
theorem inbound_guard_order (secret : String) (nets : List IPv4Net)
    (sigH tsH rawBody : String) (now : Int) (clientIp : String)
    (payload : PyDict) (db : List AuditRecord) :
    (∀ e : HttpError,
      verify_hmac secret sigH tsH rawBody now = Except.error e →
      receive_seo_report secret nets sigH tsH rawBody now clientIp payload
        db = Except.error e ∧
      receive_publish_notification secret nets sigH tsH rawBody now clientIp
        payload db = Except.error e) ∧
    (∀ st : HttpError,
      (receive_seo_report secret nets sigH tsH rawBody now clientIp payload
         db = Except.error st ∨
       receive_publish_notification secret nets sigH tsH rawBody now
         clientIp payload db = Except.error st) →
      st.status = 403 →
      verify_hmac secret sigH tsH rawBody now = Except.ok true ∧
      verify_ip_allowlist clientIp nets = Except.error st) := by
  constructor
  · intro e he
    exact ⟨receive_report_hmac_err secret nets sigH tsH rawBody now clientIp
        payload db e he,
      receive_publish_hmac_err secret nets sigH tsH rawBody now clientIp
        payload db e he⟩
  · intro st hst h403
    cases hh : verify_hmac secret sigH tsH rawBody now with
    | error e =>
      exfalso
      have he401 := verify_hmac_error_401 secret sigH tsH rawBody now e hh
      have hste : st = e := by
        cases hst with
        | inl h =>
          rw [receive_report_hmac_err secret nets sigH tsH rawBody now
            clientIp payload db e hh] at h
          injection h with h1
          exact h1.symm
        | inr h =>
          rw [receive_publish_hmac_err secret nets sigH tsH rawBody now
            clientIp payload db e hh] at h
          injection h with h1
          exact h1.symm
      subst hste
      rw [he401] at h403
      exact absurd h403 (by decide)
    | ok b =>
      have hb := verify_hmac_ok_true secret sigH tsH rawBody now b hh
      subst hb
      refine ⟨rfl, ?_⟩
      cases hip : verify_ip_allowlist clientIp nets with
      | error e2 =>
        have hste : st = e2 := by
          cases hst with
          | inl h =>
            rw [receive_report_ip_err secret nets sigH tsH rawBody now
              clientIp payload db true e2 hh hip] at h
            injection h with h1
            exact h1.symm
          | inr h =>
            rw [receive_publish_ip_err secret nets sigH tsH rawBody now
              clientIp payload db true e2 hh hip] at h
            injection h with h1
            exact h1.symm
        rw [hste]
      | ok b2 =>
        exfalso
        cases hst with
        | inl h =>
          rw [receive_report_ok secret nets sigH tsH rawBody now clientIp
            payload db true b2 hh hip] at h
          exact absurd h (by simp)
        | inr h =>
          rw [receive_publish_ok secret nets sigH tsH rawBody now clientIp
            payload db true b2 hh hip] at h
          exact absurd h (by simp)

/-- Concrete instances for the amended guard-order claim: an invalid
signature from a non-allowlisted IP gets 401, and a 403 arises exactly
when the signature passed and the allowlist rejected. -/
theorem inbound_guard_order_witness :
    receive_seo_report "s" [] "deadbeef" "100" "b" 100 "192.168.1.1"
      exReport [] = Except.error ⟨401, "Invalid signature"⟩ ∧
    verify_hmac "s" (sign "s" "100" "b") "100" "b" 100 = Except.ok true ∧
    verify_ip_allowlist "192.168.1.1" [] =
      Except.error ⟨403, "IP not in allowlist"⟩ := by
  have hok : verify_hmac "s" (sign "s" "100" "b") "100" "b" 100 =
      Except.ok true := hmac_goodsig "s" "100" "b" 100 (by decide)
  have hrep : receive_seo_report "s" [] (sign "s" "100" "b") "100" "b" 100
      "192.168.1.1" exReport [] =
      Except.error ⟨403, "IP not in allowlist"⟩ :=
    receive_report_ip_err "s" [] (sign "s" "100" "b") "100" "b" 100
      "192.168.1.1" exReport [] true ⟨403, "IP not in allowlist"⟩ hok rfl
  exact ⟨((inbound_guard_order "s" [] "deadbeef" "100" "b" 100 "192.168.1.1"
      exReport []).1 ⟨401, "Invalid signature"⟩ hmac_badsig).1,
    ((inbound_guard_order "s" [] (sign "s" "100" "b") "100" "b" 100
      "192.168.1.1" exReport []).2 ⟨403, "IP not in allowlist"⟩
      (Or.inl hrep) rfl).1,
    ((inbound_guard_order "s" [] (sign "s" "100" "b") "100" "b" 100
      "192.168.1.1" exReport []).2 ⟨403, "IP not in allowlist"⟩
      (Or.inl hrep) rfl).2⟩

/-- Claim C2 as stated is false: a valid, fresh, allowlisted Report whose
body carries the vendor marker key customerscout_id is accepted and
logged, but the single audit record stores the payload verbatim — the
marker present in the original is present in the stored payload
(redaction is computed only afterwards and its result is not what was
logged). -/
theorem report_audit_counterexample :
    dictHasMarkerDeep exReport = true ∧
    receive_seo_report "s" [] (sign "s" "100" "b") "100" "b" 100
      "127.0.0.1" exReport [] =
      Except.ok ⟨true,
        [⟨some "r1", "inbound", "report", exReport,
          some (sign "s" "100" "b"), some "127.0.0.1", false⟩],
        sanitize_vendor_data exReport⟩ := by
  refine ⟨by decide, ?_⟩
  have hfresh : checkFreshness "100" 100 = FreshStatus.ok := by decide
  have hok : verify_hmac "s" (sign "s" "100" "b") "100" "b" 100 =
      Except.ok true := by
    simp [verify_hmac, compare_digest, hfresh]
  have hip : verify_ip_allowlist "127.0.0.1" [] = Except.ok true := rfl
  simp [receive_seo_report, hok, hip, log_communication, lookupRequestId,
    exReport, pyLookup]

/-- Claim C2 amended: a Report with a valid signature, fresh timestamp
and allowlisted IP returns success and appends exactly one audit record
with direction inbound and message_type report — whose stored payload is
the verbatim request payload — while the sanitized payload the handler
computes (and hands downstream) is free of vendor-identity markers at
every position its traversal reaches. -/
theorem report_endpoint_amended (secret : String) (nets : List IPv4Net)
    (tsH rawBody : String) (now : Int) (clientIp : String)
    (report : PyDict) (db : List AuditRecord)
    (hfresh : checkFreshness tsH now = FreshStatus.ok)
    (hip : verify_ip_allowlist clientIp nets = Except.ok true) :
    receive_seo_report secret nets (sign secret tsH rawBody) tsH rawBody
      now clientIp report db =
      Except.ok ⟨true,
        db ++ [⟨lookupRequestId report, "inbound", "report", report,
          some (sign secret tsH rawBody), some clientIp, false⟩],
        sanitize_vendor_data report⟩ ∧
    sanOkDict (sanitize_vendor_data report) = true := by
  have hok : verify_hmac secret (sign secret tsH rawBody) tsH rawBody now =
      Except.ok true := by
    simp [verify_hmac, compare_digest, hfresh]
  exact ⟨by simp [receive_seo_report, hok, hip, log_communication],
    sanD_ok report⟩

/-- Concrete instance of the amended report claim. -/
theorem report_endpoint_amended_witness :
    receive_seo_report "s" [] (sign "s" "100" "b") "100" "b" 100
      "127.0.0.1" exReport [] =
      Except.ok ⟨true,
        [] ++ [⟨lookupRequestId exReport, "inbound", "report", exReport,
          some (sign "s" "100" "b"), some "127.0.0.1", false⟩],
        sanitize_vendor_data exReport⟩ ∧
    sanOkDict (sanitize_vendor_data exReport) = true :=
  report_endpoint_amended "s" [] "100" "b" 100 "127.0.0.1" exReport []
    (by decide) rfl

/-! ## Heap model: extension and preservation lemmas -/

theorem heapLE_refl (h : Heap) : HeapLE h h :=
  ⟨le_refl _, fun _ _ => rfl, le_refl _, fun _ _ => rfl⟩

theorem heapLE_trans {h1 h2 h3 : Heap} (a : HeapLE h1 h2)
    (b : HeapLE h2 h3) : HeapLE h1 h3 :=
  ⟨le_trans a.1 b.1,
   fun i hi => (b.2.1 i (lt_of_lt_of_le hi a.1)).trans (a.2.1 i hi),
   le_trans a.2.2.1 b.2.2.1,
   fun j hj => (b.2.2.2 j (lt_of_lt_of_le hj a.2.2.1)).trans (a.2.2.2 j hj)⟩

theorem heapLE_toLEx (c : Nat) {h h' : Heap} (a : HeapLE h h') :
    HeapLEx c h h' :=
  ⟨a.1, fun i hi _ => a.2.1 i hi, a.2.2.1, a.2.2.2⟩

theorem heapLEx_trans {c : Nat} {h1 h2 h3 : Heap} (a : HeapLEx c h1 h2)
    (b : HeapLEx c h2 h3) : HeapLEx c h1 h3 :=
  ⟨le_trans a.1 b.1,
   fun i hi hc => (b.2.1 i (lt_of_lt_of_le hi a.1) hc).trans (a.2.1 i hi hc),
   le_trans a.2.2.1 b.2.2.1,
   fun j hj => (b.2.2.2 j (lt_of_lt_of_le hj a.2.2.1)).trans (a.2.2.2 j hj)⟩

theorem heapLEx_set (heap : Heap) (c : Nat)
    (entries : List (String × HV)) :
    HeapLEx c heap ⟨heap.dicts.set c entries, heap.lists⟩ := by
  refine ⟨?_, ?_, le_refl _, fun _ _ => rfl⟩
  · simp [List.length_set]
  · intro i _ hic
    exact List.getElem?_set_ne (Ne.symm hic)

theorem heapLE_pushDict (heap : Heap) (entries : List (String × HV)) :
    HeapLE heap ⟨heap.dicts ++ [entries], heap.lists⟩ := by
  refine ⟨?_, ?_, le_refl _, fun _ _ => rfl⟩
  · simp
  · intro i hi
    exact List.getElem?_append_left hi

theorem heapLE_pushList (heap : Heap) (items : List HV) :
    HeapLE heap ⟨heap.dicts, heap.lists ++ [items]⟩ := by
  refine ⟨le_refl _, fun _ _ => rfl, ?_, ?_⟩
  · simp
  · intro j hj
    exact List.getElem?_append_left hj

theorem heapLEx_setPush (heap : Heap) (c : Nat)
    (entries : List (String × HV)) (items : List HV) :
    HeapLEx c heap ⟨heap.dicts.set c entries, heap.lists ++ [items]⟩ := by
  refine ⟨?_, ?_, ?_, ?_⟩
  · simp [List.length_set]
  · intro i _ hic
    exact List.getElem?_set_ne (Ne.symm hic)
  · simp
  · intro j hj
    exact List.getElem?_append_left hj

theorem preservesBelow_of_LE {N L : Nat} {h h' : Heap}
    (hN : N ≤ h.dicts.length) (hL : L ≤ h.lists.length)
    (a : HeapLE h h') : PreservesBelow N L h h' :=
  ⟨fun i hi => a.2.1 i (lt_of_lt_of_le hi hN),
   fun j hj => a.2.2.2 j (lt_of_lt_of_le hj hL)⟩

theorem preservesBelow_of_LEx {N L c : Nat} {h h' : Heap}
    (hN : N ≤ h.dicts.length) (hL : L ≤ h.lists.length) (hc : N ≤ c)
    (a : HeapLEx c h h') : PreservesBelow N L h h' :=
  ⟨fun i hi => a.2.1 i (lt_of_lt_of_le hi hN) (Nat.ne_of_lt
      (lt_of_lt_of_le hi hc)),
   fun j hj => a.2.2.2 j (lt_of_lt_of_le hj hL)⟩

theorem closedBelow_preserved {N L : Nat} {h h' : Heap}
    (hc : ClosedBelow N L h) (hp : PreservesBelow N L h h') :
    ClosedBelow N L h' :=
  ⟨fun i hi entries hget => hc.1 i hi entries ((hp.1 i hi).symm.trans hget),
   fun j hj items hget => hc.2 j hj items ((hp.2 j hj).symm.trans hget)⟩

theorem closedBelow_of_heapClosed {heap : Heap}
    (h : heapClosed heap = true) :
    ClosedBelow heap.dicts.length heap.lists.length heap := by
  simp only [heapClosed, Bool.and_eq_true, List.all_eq_true] at h
  constructor
  · intro i _ entries hget
    exact h.1 entries (List.getElem?_mem hget)
  · intro j _ items hget
    exact h.2 items (List.getElem?_mem hget)

mutual

theorem sanHeap_ext : ∀ (fuel : Nat) (heap : Heap) (a : Nat)
    (h' : Heap) (c : Nat), sanHeap fuel heap a = some (h', c) →
    HeapLE heap h' ∧ c = heap.dicts.length ∧ c < h'.dicts.length
  | 0, heap, a, h', c => by
    intro h
    simp [sanHeap] at h
  | fuel+1, heap, a, h', c => by
    intro h
    simp only [sanHeap] at h
    rcases Option.bind_eq_some.mp h with ⟨entries, hga, h2eq⟩
    rcases Option.map_eq_some'.mp h2eq with ⟨h2, hse, hpair⟩
    have hh : h2 = h' := congrArg Prod.fst hpair
    have hcc : heap.dicts.length = c := congrArg Prod.snd hpair
    subst hh
    subst hcc
    have hex := sanEntries_ext fuel ⟨heap.dicts ++ [entries], heap.lists⟩
      heap.dicts.length entries h2 hse
    have hpush := heapLE_pushDict heap entries
    refine ⟨?_, rfl, ?_⟩
    · refine ⟨le_trans hpush.1 hex.1, ?_, le_trans hpush.2.2.1 hex.2.2.1,
        ?_⟩
      · intro i hi
        have hne : i ≠ heap.dicts.length := Nat.ne_of_lt hi
        have h1 := hex.2.1 i (lt_of_lt_of_le hi hpush.1) hne
        exact h1.trans (hpush.2.1 i hi)
      · intro j hj
        have h1 := hex.2.2.2 j (lt_of_lt_of_le hj hpush.2.2.1)
        exact h1.trans (hpush.2.2.2 j hj)
    · have hlt : heap.dicts.length <
          (⟨heap.dicts ++ [entries], heap.lists⟩ : Heap).dicts.length := by
        simp
      exact lt_of_lt_of_le hlt hex.1

theorem sanEntries_ext : ∀ (fuel : Nat) (heap : Heap) (c : Nat)
    (entries : List (String × HV)) (h' : Heap),
    sanEntries fuel heap c entries = some h' → HeapLEx c heap h'
  | 0, heap, c, entries, h' => by
    intro h
    simp [sanEntries] at h
  | fuel+1, heap, c, [], h' => by
    intro h
    simp only [sanEntries] at h
    injection h with hh
    subst hh
    exact heapLE_toLEx c (heapLE_refl heap)
  | fuel+1, heap, c, (k, v) :: rest, h' => by
    intro h
    simp only [sanEntries] at h
    rcases Option.bind_eq_some.mp h with ⟨h2, hs1, hs2⟩
    exact heapLEx_trans (sanEntry_ext fuel heap c k v h2 hs1)
      (sanEntries_ext fuel h2 c rest h' hs2)

theorem sanEntry_ext : ∀ (fuel : Nat) (heap : Heap) (c : Nat) (k : String)
    (v : HV) (h' : Heap), sanEntry fuel heap c k v = some h' →
    HeapLEx c heap h'
  | 0, heap, c, k, v, h' => by
    intro h
    simp [sanEntry] at h
  | fuel+1, heap, c, k, HV.hstr s, h' => by
    intro h
    simp only [sanEntry] at h
    by_cases hk : isVendorKey k = true
    · rw [if_pos hk] at h
      injection h with hh
      subst hh
      exact heapLEx_set heap c _
    · rw [if_neg hk] at h
      injection h with hh
      subst hh
      exact heapLEx_set heap c _
  | fuel+1, heap, c, k, HV.hint n, h' => by
    intro h
    simp only [sanEntry] at h
    by_cases hk : isVendorKey k = true
    · rw [if_pos hk] at h
      injection h with hh
      subst hh
      exact heapLEx_set heap c _
    · rw [if_neg hk] at h
      injection h with hh
      subst hh
      exact heapLE_toLEx c (heapLE_refl heap)
  | fuel+1, heap, c, k, HV.hbool b, h' => by
    intro h
    simp only [sanEntry] at h
    by_cases hk : isVendorKey k = true
    · rw [if_pos hk] at h
      injection h with hh
      subst hh
      exact heapLEx_set heap c _
    · rw [if_neg hk] at h
      injection h with hh
      subst hh
      exact heapLE_toLEx c (heapLE_refl heap)
  | fuel+1, heap, c, k, HV.hnone, h' => by
    intro h
    simp only [sanEntry] at h
    by_cases hk : isVendorKey k = true
    · rw [if_pos hk] at h
      injection h with hh
      subst hh
      exact heapLEx_set heap c _
    · rw [if_neg hk] at h
      injection h with hh
      subst hh
      exact heapLE_toLEx c (heapLE_refl heap)
  | fuel+1, heap, c, k, HV.dref a, h' => by
    intro h
    simp only [sanEntry] at h
    by_cases hk : isVendorKey k = true
    · rw [if_pos hk] at h
      injection h with hh
      subst hh
      exact heapLEx_set heap c _
    · rw [if_neg hk] at h
      rcases Option.map_eq_some'.mp h with ⟨pr, hs1, hh⟩
      subst hh
      exact heapLEx_trans
        (heapLE_toLEx c (sanHeap_ext fuel heap a pr.1 pr.2
          (by rw [hs1])).1)
        (heapLEx_set pr.1 c _)
  | fuel+1, heap, c, k, HV.lref li, h' => by
    intro h
    simp only [sanEntry] at h
    by_cases hk : isVendorKey k = true
    · rw [if_pos hk] at h
      injection h with hh
      subst hh
      exact heapLEx_set heap c _
    · rw [if_neg hk] at h
      rcases Option.bind_eq_some.mp h with ⟨items, hli, h2⟩
      by_cases hall : items.all isDref = true
      · rw [if_pos hall] at h2
        rcases Option.map_eq_some'.mp h2 with ⟨pr, hs2, hh⟩
        subst hh
        exact heapLEx_trans
          (heapLE_toLEx c (sanItems_ext fuel heap items pr.1 pr.2
            (by rw [hs2])))
          (heapLEx_setPush pr.1 c _ _)
      · rw [if_neg hall] at h2
        injection h2 with hh
        subst hh
        exact heapLE_toLEx c (heapLE_refl heap)

theorem sanItems_ext : ∀ (fuel : Nat) (heap : Heap) (items : List HV)
    (h' : Heap) (rs : List HV), sanItems fuel heap items = some (h', rs) →
    HeapLE heap h'
  | 0, heap, items, h', rs => by
    intro h
    simp [sanItems] at h
  | fuel+1, heap, [], h', rs => by
    intro h
    simp only [sanItems] at h
    injection h with h12
    have hh : heap = h' := congrArg Prod.fst h12
    subst hh
    exact heapLE_refl heap
  | fuel+1, heap, HV.dref a :: rest, h', rs => by
    intro h
    simp only [sanItems] at h
    rcases Option.bind_eq_some.mp h with ⟨pr, hs1, h2⟩
    rcases Option.map_eq_some'.mp h2 with ⟨pr2, hs2, hpair⟩
    have hh : pr2.1 = h' := congrArg Prod.fst hpair
    subst hh
    exact heapLE_trans
      (sanHeap_ext fuel heap a pr.1 pr.2 (by rw [hs1])).1
      (sanItems_ext fuel pr.1 rest pr2.1 pr2.2 (by rw [hs2]))
  | fuel+1, heap, HV.hstr str :: rest, h', rs => by
    intro h
    simp only [sanItems] at h
    rcases Option.map_eq_some'.mp h with ⟨pr2, hs2, hpair⟩
    have hh : pr2.1 = h' := congrArg Prod.fst hpair
    subst hh
    exact sanItems_ext fuel heap rest pr2.1 pr2.2 (by rw [hs2])
  | fuel+1, heap, HV.hint n :: rest, h', rs => by
    intro h
    simp only [sanItems] at h
    rcases Option.map_eq_some'.mp h with ⟨pr2, hs2, hpair⟩
    have hh : pr2.1 = h' := congrArg Prod.fst hpair
    subst hh
    exact sanItems_ext fuel heap rest pr2.1 pr2.2 (by rw [hs2])
  | fuel+1, heap, HV.hbool b :: rest, h', rs => by
    intro h
    simp only [sanItems] at h
    rcases Option.map_eq_some'.mp h with ⟨pr2, hs2, hpair⟩
    have hh : pr2.1 = h' := congrArg Prod.fst hpair
    subst hh
    exact sanItems_ext fuel heap rest pr2.1 pr2.2 (by rw [hs2])
  | fuel+1, heap, HV.hnone :: rest, h', rs => by
    intro h
    simp only [sanItems] at h
    rcases Option.map_eq_some'.mp h with ⟨pr2, hs2, hpair⟩
    have hh : pr2.1 = h' := congrArg Prod.fst hpair
    subst hh
    exact sanItems_ext fuel heap rest pr2.1 pr2.2 (by rw [hs2])
  | fuel+1, heap, HV.lref li :: rest, h', rs => by
    intro h
    simp only [sanItems] at h
    rcases Option.map_eq_some'.mp h with ⟨pr2, hs2, hpair⟩
    have hh : pr2.1 = h' := congrArg Prod.fst hpair
    subst hh
    exact sanItems_ext fuel heap rest pr2.1 pr2.2 (by rw [hs2])

end

mutual

theorem readAddr_stable : ∀ (fuel N L : Nat) (heap h' : Heap) (a : Nat)
    (t : PyDict), ClosedBelow N L heap → PreservesBelow N L heap h' →
    a < N → readAddr fuel heap a = some t → readAddr fuel h' a = some t
  | 0, N, L, heap, h', a, t => by
    intro _ _ _ hread
    simp [readAddr] at hread
  | fuel+1, N, L, heap, h', a, t => by
    intro hcl hp ha hread
    simp only [readAddr] at hread ⊢
    rcases Option.bind_eq_some.mp hread with ⟨entries, hga, hre⟩
    rw [hp.1 a ha, hga]
    exact readEntries_stable fuel N L heap h' entries t hcl hp
      (hcl.1 a ha entries hga) hre

theorem readEntries_stable : ∀ (fuel N L : Nat) (heap h' : Heap)
    (entries : List (String × HV)) (d : PyDict), ClosedBelow N L heap →
    PreservesBelow N L heap h' → entriesClosed N L entries = true →
    readEntries fuel heap entries = some d →
    readEntries fuel h' entries = some d
  | 0, N, L, heap, h', entries, d => by
    intro _ _ _ hread
    simp [readEntries] at hread
  | fuel+1, N, L, heap, h', [], d => by
    intro _ _ _ hread
    exact hread
  | fuel+1, N, L, heap, h', (k, v) :: rest, d => by
    intro hcl hp hce hread
    simp only [entriesClosed, List.all_cons, Bool.and_eq_true] at hce
    simp only [readEntries] at hread ⊢
    rcases Option.bind_eq_some.mp hread with ⟨pv, hv, hmap⟩
    rcases Option.map_eq_some'.mp hmap with ⟨d2, hrest, hd⟩
    rw [readHV_stable fuel N L heap h' v pv hcl hp hce.1 hv,
      readEntries_stable fuel N L heap h' rest d2 hcl hp hce.2 hrest]
    exact congrArg some hd

theorem readHV_stable : ∀ (fuel N L : Nat) (heap h' : Heap) (v : HV)
    (pv : PyVal), ClosedBelow N L heap → PreservesBelow N L heap h' →
    hvClosed N L v = true → readHV fuel heap v = some pv →
    readHV fuel h' v = some pv
  | 0, N, L, heap, h', v, pv => by
    intro _ _ _ hread
    simp [readHV] at hread
  | fuel+1, N, L, heap, h', HV.hstr s, pv => by
    intro _ _ _ hread
    exact hread
  | fuel+1, N, L, heap, h', HV.hint n, pv => by
    intro _ _ _ hread
    exact hread
  | fuel+1, N, L, heap, h', HV.hbool b, pv => by
    intro _ _ _ hread
    exact hread
  | fuel+1, N, L, heap, h', HV.hnone, pv => by
    intro _ _ _ hread
    exact hread
  | fuel+1, N, L, heap, h', HV.dref a, pv => by
    intro hcl hp hvc hread
    simp only [hvClosed, decide_eq_true_eq] at hvc
    simp only [readHV] at hread ⊢
    rcases Option.map_eq_some'.mp hread with ⟨d, hra, hd⟩
    rw [readAddr_stable fuel N L heap h' a d hcl hp hvc hra]
    exact congrArg some hd
  | fuel+1, N, L, heap, h', HV.lref i, pv => by
    intro hcl hp hvc hread
    simp only [hvClosed, decide_eq_true_eq] at hvc
    simp only [readHV] at hread ⊢
    rcases Option.bind_eq_some.mp hread with ⟨items, hli, hmap⟩
    rcases Option.map_eq_some'.mp hmap with ⟨l, hri, hl⟩
    refine Option.bind_eq_some.mpr ⟨items, (hp.2 i hvc).trans hli, ?_⟩
    exact Option.map_eq_some'.mpr ⟨l,
      readItems_stable fuel N L heap h' items l hcl hp
        (hcl.2 i hvc items hli) hri, hl⟩

theorem readItems_stable : ∀ (fuel N L : Nat) (heap h' : Heap)
    (items : List HV) (l : PyList), ClosedBelow N L heap →
    PreservesBelow N L heap h' → itemsClosed N L items = true →
    readItems fuel heap items = some l → readItems fuel h' items = some l
  | 0, N, L, heap, h', items, l => by
    intro _ _ _ hread
    simp [readItems] at hread
  | fuel+1, N, L, heap, h', [], l => by
    intro _ _ _ hread
    exact hread
  | fuel+1, N, L, heap, h', HV.dref a :: rest, l => by
    intro hcl hp hic hread
    simp only [itemsClosed, List.all_cons, Bool.and_eq_true] at hic
    have ha : a < N := by
      have := hic.1
      simp only [hvClosed, decide_eq_true_eq] at this
      exact this
    simp only [readItems] at hread ⊢
    rcases Option.bind_eq_some.mp hread with ⟨d, hra, hmap⟩
    rcases Option.map_eq_some'.mp hmap with ⟨l2, hrest, hl⟩
    rw [readAddr_stable fuel N L heap h' a d hcl hp ha hra,
      readItems_stable fuel N L heap h' rest l2 hcl hp hic.2 hrest]
    exact congrArg some hl
  | fuel+1, N, L, heap, h', HV.hstr s :: rest, l => by
    intro hcl hp hic hread
    simp only [itemsClosed, List.all_cons, Bool.and_eq_true] at hic
    simp only [readItems] at hread ⊢
    rcases Option.bind_eq_some.mp hread with ⟨pv, hx, hmap⟩
    rcases Option.map_eq_some'.mp hmap with ⟨l2, hrest, hl⟩
    rw [readHV_stable fuel N L heap h' (HV.hstr s) pv hcl hp hic.1 hx,
      readItems_stable fuel N L heap h' rest l2 hcl hp hic.2 hrest]
    exact congrArg some hl
  | fuel+1, N, L, heap, h', HV.hint n :: rest, l => by
    intro hcl hp hic hread
    simp only [itemsClosed, List.all_cons, Bool.and_eq_true] at hic
    simp only [readItems] at hread ⊢
    rcases Option.bind_eq_some.mp hread with ⟨pv, hx, hmap⟩
    rcases Option.map_eq_some'.mp hmap with ⟨l2, hrest, hl⟩
    rw [readHV_stable fuel N L heap h' (HV.hint n) pv hcl hp hic.1 hx,
      readItems_stable fuel N L heap h' rest l2 hcl hp hic.2 hrest]
    exact congrArg some hl
  | fuel+1, N, L, heap, h', HV.hbool b :: rest, l => by
    intro hcl hp hic hread
    simp only [itemsClosed, List.all_cons, Bool.and_eq_true] at hic
    simp only [readItems] at hread ⊢
    rcases Option.bind_eq_some.mp hread with ⟨pv, hx, hmap⟩
    rcases Option.map_eq_some'.mp hmap with ⟨l2, hrest, hl⟩
    rw [readHV_stable fuel N L heap h' (HV.hbool b) pv hcl hp hic.1 hx,
      readItems_stable fuel N L heap h' rest l2 hcl hp hic.2 hrest]
    exact congrArg some hl
  | fuel+1, N, L, heap, h', HV.hnone :: rest, l => by
    intro hcl hp hic hread
    simp only [itemsClosed, List.all_cons, Bool.and_eq_true] at hic
    simp only [readItems] at hread ⊢
    rcases Option.bind_eq_some.mp hread with ⟨pv, hx, hmap⟩
    rcases Option.map_eq_some'.mp hmap with ⟨l2, hrest, hl⟩
    rw [readHV_stable fuel N L heap h' HV.hnone pv hcl hp hic.1 hx,
      readItems_stable fuel N L heap h' rest l2 hcl hp hic.2 hrest]
    exact congrArg some hl
  | fuel+1, N, L, heap, h', HV.lref i :: rest, l => by
    intro hcl hp hic hread
    simp only [itemsClosed, List.all_cons, Bool.and_eq_true] at hic
    simp only [readItems] at hread ⊢
    rcases Option.bind_eq_some.mp hread with ⟨pv, hx, hmap⟩
    rcases Option.map_eq_some'.mp hmap with ⟨l2, hrest, hl⟩
    rw [readHV_stable fuel N L heap h' (HV.lref i) pv hcl hp hic.1 hx,
      readItems_stable fuel N L heap h' rest l2 hcl hp hic.2 hrest]
    exact congrArg some hl

end

mutual

theorem sanHeap_total : ∀ (fuel N L : Nat) (heap : Heap) (a : Nat)
    (t : PyDict), ClosedBelow N L heap → N ≤ heap.dicts.length →
    L ≤ heap.lists.length → a < N → readAddr fuel heap a = some t →
    ∃ pr : Heap × Nat, sanHeap fuel heap a = some pr
  | 0, N, L, heap, a, t => by
    intro _ _ _ _ hread
    simp [readAddr] at hread
  | fuel+1, N, L, heap, a, t => by
    intro hcl hN hL ha hread
    simp only [readAddr] at hread
    rcases Option.bind_eq_some.mp hread with ⟨entries, hga, hre⟩
    have ec : entriesClosed N L entries = true := hcl.1 a ha entries hga
    have hLE := heapLE_pushDict heap entries
    have hp := preservesBelow_of_LE hN hL hLE
    have hcl1 := closedBelow_preserved hcl hp
    have hre1 := readEntries_stable fuel N L heap
      ⟨heap.dicts ++ [entries], heap.lists⟩ entries t hcl hp ec hre
    rcases sanEntries_total fuel N L ⟨heap.dicts ++ [entries], heap.lists⟩
      heap.dicts.length entries t hcl1 (le_trans hN hLE.1)
      (le_trans hL hLE.2.2.1) hN ec hre1 with ⟨h2, hse⟩
    refine ⟨(h2, heap.dicts.length), ?_⟩
    simp only [sanHeap]
    exact Option.bind_eq_some.mpr ⟨entries, hga,
      Option.map_eq_some'.mpr ⟨h2, hse, rfl⟩⟩

theorem sanEntries_total : ∀ (fuel N L : Nat) (heap : Heap) (c : Nat)
    (entries : List (String × HV)) (d : PyDict), ClosedBelow N L heap →
    N ≤ heap.dicts.length → L ≤ heap.lists.length → N ≤ c →
    entriesClosed N L entries = true →
    readEntries fuel heap entries = some d →
    ∃ h2 : Heap, sanEntries fuel heap c entries = some h2
  | 0, N, L, heap, c, entries, d => by
    intro _ _ _ _ _ hread
    simp [readEntries] at hread
  | fuel+1, N, L, heap, c, [], d => by
    intro _ _ _ _ _ _
    exact ⟨heap, rfl⟩
  | fuel+1, N, L, heap, c, (k, v) :: rest, d => by
    intro hcl hN hL hNc hce hread
    simp only [entriesClosed, List.all_cons, Bool.and_eq_true] at hce
    simp only [readEntries] at hread
    rcases Option.bind_eq_some.mp hread with ⟨pv, hv, hmap⟩
    rcases Option.map_eq_some'.mp hmap with ⟨d2, hrest, _⟩
    rcases sanEntry_total fuel N L heap c k v pv hcl hN hL hNc hce.1 hv
      with ⟨h2, hs1⟩
    have ext := sanEntry_ext fuel heap c k v h2 hs1
    have hp := preservesBelow_of_LEx hN hL hNc ext
    have hcl2 := closedBelow_preserved hcl hp
    have hrest2 := readEntries_stable fuel N L heap h2 rest d2 hcl hp
      hce.2 hrest
    rcases sanEntries_total fuel N L h2 c rest d2 hcl2
      (le_trans hN ext.1) (le_trans hL ext.2.2.1) hNc hce.2 hrest2
      with ⟨h3, hs2⟩
    refine ⟨h3, ?_⟩
    simp only [sanEntries]
    exact Option.bind_eq_some.mpr ⟨h2, hs1, hs2⟩

theorem sanEntry_total : ∀ (fuel N L : Nat) (heap : Heap) (c : Nat)
    (k : String) (v : HV) (pv : PyVal), ClosedBelow N L heap →
    N ≤ heap.dicts.length → L ≤ heap.lists.length → N ≤ c →
    hvClosed N L v = true → readHV fuel heap v = some pv →
    ∃ h2 : Heap, sanEntry fuel heap c k v = some h2
  | 0, N, L, heap, c, k, v, pv => by
    intro _ _ _ _ _ hread
    simp [readHV] at hread
  | fuel+1, N, L, heap, c, k, HV.hstr s, pv => by
    intro _ _ _ _ _ _
    by_cases hk : isVendorKey k = true
    · exact ⟨⟨heap.dicts.set c (delKey (heap.dicts.getD c []) k),
        heap.lists⟩, by simp only [sanEntry]; rw [if_pos hk]⟩
    · exact ⟨⟨heap.dicts.set c
        (setKey (heap.dicts.getD c []) k (.hstr (pyReplaceCS s))),
        heap.lists⟩, by simp only [sanEntry]; rw [if_neg hk]⟩
  | fuel+1, N, L, heap, c, k, HV.hint n, pv => by
    intro _ _ _ _ _ _
    by_cases hk : isVendorKey k = true
    · exact ⟨⟨heap.dicts.set c (delKey (heap.dicts.getD c []) k),
        heap.lists⟩, by simp only [sanEntry]; rw [if_pos hk]⟩
    · exact ⟨heap, by simp only [sanEntry]; rw [if_neg hk]⟩
  | fuel+1, N, L, heap, c, k, HV.hbool b, pv => by
    intro _ _ _ _ _ _
    by_cases hk : isVendorKey k = true
    · exact ⟨⟨heap.dicts.set c (delKey (heap.dicts.getD c []) k),
        heap.lists⟩, by simp only [sanEntry]; rw [if_pos hk]⟩
    · exact ⟨heap, by simp only [sanEntry]; rw [if_neg hk]⟩
  | fuel+1, N, L, heap, c, k, HV.hnone, pv => by
    intro _ _ _ _ _ _
    by_cases hk : isVendorKey k = true
    · exact ⟨⟨heap.dicts.set c (delKey (heap.dicts.getD c []) k),
        heap.lists⟩, by simp only [sanEntry]; rw [if_pos hk]⟩
    · exact ⟨heap, by simp only [sanEntry]; rw [if_neg hk]⟩
  | fuel+1, N, L, heap, c, k, HV.dref a, pv => by
    intro hcl hN hL hNc hvc hread
    by_cases hk : isVendorKey k = true
    · exact ⟨⟨heap.dicts.set c (delKey (heap.dicts.getD c []) k),
        heap.lists⟩, by simp only [sanEntry]; rw [if_pos hk]⟩
    · simp only [hvClosed, decide_eq_true_eq] at hvc
      simp only [readHV] at hread
      rcases Option.map_eq_some'.mp hread with ⟨dd, hra, _⟩
      rcases sanHeap_total fuel N L heap a dd hcl hN hL hvc hra
        with ⟨pr, hs⟩
      refine ⟨⟨pr.1.dicts.set c
        (setKey (pr.1.dicts.getD c []) k (.dref pr.2)), pr.1.lists⟩, ?_⟩
      simp only [sanEntry]
      rw [if_neg hk]
      exact Option.map_eq_some'.mpr ⟨pr, hs, rfl⟩
  | fuel+1, N, L, heap, c, k, HV.lref li, pv => by
    intro hcl hN hL hNc hvc hread
    by_cases hk : isVendorKey k = true
    · exact ⟨⟨heap.dicts.set c (delKey (heap.dicts.getD c []) k),
        heap.lists⟩, by simp only [sanEntry]; rw [if_pos hk]⟩
    · simp only [hvClosed, decide_eq_true_eq] at hvc
      simp only [readHV] at hread
      rcases Option.bind_eq_some.mp hread with ⟨items, hli, hmap⟩
      rcases Option.map_eq_some'.mp hmap with ⟨l, hri, _⟩
      have ic : itemsClosed N L items = true := hcl.2 li hvc items hli
      by_cases hall : items.all isDref = true
      · rcases sanItems_total fuel N L heap items l hcl hN hL ic hri
          with ⟨pr, hsi⟩
        refine ⟨⟨pr.1.dicts.set c
          (setKey (pr.1.dicts.getD c []) k (.lref pr.1.lists.length)),
          pr.1.lists ++ [pr.2]⟩, ?_⟩
        simp only [sanEntry]
        rw [if_neg hk]
        refine Option.bind_eq_some.mpr ⟨items, hli, ?_⟩
        rw [if_pos hall]
        exact Option.map_eq_some'.mpr ⟨pr, hsi, rfl⟩
      · refine ⟨heap, ?_⟩
        simp only [sanEntry]
        rw [if_neg hk]
        refine Option.bind_eq_some.mpr ⟨items, hli, ?_⟩
        rw [if_neg hall]

theorem sanItems_total : ∀ (fuel N L : Nat) (heap : Heap)
    (items : List HV) (l : PyList), ClosedBelow N L heap →
    N ≤ heap.dicts.length → L ≤ heap.lists.length →
    itemsClosed N L items = true → readItems fuel heap items = some l →
    ∃ pr : Heap × List HV, sanItems fuel heap items = some pr
  | 0, N, L, heap, items, l => by
    intro _ _ _ _ hread
    simp [readItems] at hread
  | fuel+1, N, L, heap, [], l => by
    intro _ _ _ _ _
    exact ⟨(heap, []), rfl⟩
  | fuel+1, N, L, heap, HV.dref a :: rest, l => by
    intro hcl hN hL hic hread
    simp only [itemsClosed, List.all_cons, Bool.and_eq_true] at hic
    have ha : a < N := by
      have := hic.1
      simp only [hvClosed, decide_eq_true_eq] at this
      exact this
    simp only [readItems] at hread
    rcases Option.bind_eq_some.mp hread with ⟨d, hra, hmap⟩
    rcases Option.map_eq_some'.mp hmap with ⟨l2, hrest, _⟩
    rcases sanHeap_total fuel N L heap a d hcl hN hL ha hra with ⟨pr, hs1⟩
    have ext := (sanHeap_ext fuel heap a pr.1 pr.2 (by rw [hs1])).1
    have hp := preservesBelow_of_LE hN hL ext
    have hcl2 := closedBelow_preserved hcl hp
    have hrest2 := readItems_stable fuel N L heap pr.1 rest l2 hcl hp
      hic.2 hrest
    rcases sanItems_total fuel N L pr.1 rest l2 hcl2 (le_trans hN ext.1)
      (le_trans hL ext.2.2.1) hic.2 hrest2 with ⟨pr2, hs2⟩
    refine ⟨(pr2.1, HV.dref pr.2 :: pr2.2), ?_⟩
    simp only [sanItems]
    exact Option.bind_eq_some.mpr ⟨pr, hs1,
      Option.map_eq_some'.mpr ⟨pr2, hs2, rfl⟩⟩
  | fuel+1, N, L, heap, HV.hstr s :: rest, l => by
    intro hcl hN hL hic hread
    simp only [itemsClosed, List.all_cons, Bool.and_eq_true] at hic
    simp only [readItems] at hread
    rcases Option.bind_eq_some.mp hread with ⟨pv, _, hmap⟩
    rcases Option.map_eq_some'.mp hmap with ⟨l2, hrest, _⟩
    rcases sanItems_total fuel N L heap rest l2 hcl hN hL hic.2 hrest
      with ⟨pr2, hs2⟩
    refine ⟨(pr2.1, HV.hstr s :: pr2.2), ?_⟩
    simp only [sanItems]
    exact Option.map_eq_some'.mpr ⟨pr2, hs2, rfl⟩
  | fuel+1, N, L, heap, HV.hint n :: rest, l => by
    intro hcl hN hL hic hread
    simp only [itemsClosed, List.all_cons, Bool.and_eq_true] at hic
    simp only [readItems] at hread
    rcases Option.bind_eq_some.mp hread with ⟨pv, _, hmap⟩
    rcases Option.map_eq_some'.mp hmap with ⟨l2, hrest, _⟩
    rcases sanItems_total fuel N L heap rest l2 hcl hN hL hic.2 hrest
      with ⟨pr2, hs2⟩
    refine ⟨(pr2.1, HV.hint n :: pr2.2), ?_⟩
    simp only [sanItems]
    exact Option.map_eq_some'.mpr ⟨pr2, hs2, rfl⟩
  | fuel+1, N, L, heap, HV.hbool b :: rest, l => by
    intro hcl hN hL hic hread
    simp only [itemsClosed, List.all_cons, Bool.and_eq_true] at hic
    simp only [readItems] at hread
    rcases Option.bind_eq_some.mp hread with ⟨pv, _, hmap⟩
    rcases Option.map_eq_some'.mp hmap with ⟨l2, hrest, _⟩
    rcases sanItems_total fuel N L heap rest l2 hcl hN hL hic.2 hrest
      with ⟨pr2, hs2⟩
    refine ⟨(pr2.1, HV.hbool b :: pr2.2), ?_⟩
    simp only [sanItems]
    exact Option.map_eq_some'.mpr ⟨pr2, hs2, rfl⟩
  | fuel+1, N, L, heap, HV.hnone :: rest, l => by
    intro hcl hN hL hic hread
    simp only [itemsClosed, List.all_cons, Bool.and_eq_true] at hic
    simp only [readItems] at hread
    rcases Option.bind_eq_some.mp hread with ⟨pv, _, hmap⟩
    rcases Option.map_eq_some'.mp hmap with ⟨l2, hrest, _⟩
    rcases sanItems_total fuel N L heap rest l2 hcl hN hL hic.2 hrest
      with ⟨pr2, hs2⟩
    refine ⟨(pr2.1, HV.hnone :: pr2.2), ?_⟩
    simp only [sanItems]
    exact Option.map_eq_some'.mpr ⟨pr2, hs2, rfl⟩
  | fuel+1, N, L, heap, HV.lref li :: rest, l => by
    intro hcl hN hL hic hread
    simp only [itemsClosed, List.all_cons, Bool.and_eq_true] at hic
    simp only [readItems] at hread
    rcases Option.bind_eq_some.mp hread with ⟨pv, _, hmap⟩
    rcases Option.map_eq_some'.mp hmap with ⟨l2, hrest, _⟩
    rcases sanItems_total fuel N L heap rest l2 hcl hN hL hic.2 hrest
      with ⟨pr2, hs2⟩
    refine ⟨(pr2.1, HV.lref li :: pr2.2), ?_⟩
    simp only [sanItems]
    exact Option.map_eq_some'.mpr ⟨pr2, hs2, rfl⟩

end

/-- Claim C8: the Identity Redaction Engine is a total, pure,
non-mutating transform at Python object level. For every closed heap
whose payload dict reads back as a tree (payloads are tree-shaped wire
data), the heap-level sanitize_vendor_data returns without failing, its
result is a freshly allocated object (the address of the copy did not
exist before the call, in particular it is not the caller's object), and
after the call the caller's original payload — including all nested
dicts, lists and strings — reads back as exactly the same tree as before
the call. -/
theorem sanitize_heap_total_fresh_nonmutating (fuel : Nat) (heap : Heap)
    (a : Nat) (t : PyDict) (hcl : heapClosed heap = true)
    (hread : readAddr fuel heap a = some t) :
    ∃ pr : Heap × Nat, sanHeap fuel heap a = some pr ∧
      pr.2 = heap.dicts.length ∧ a < heap.dicts.length ∧
      readAddr fuel pr.1 a = some t := by
  have hcb := closedBelow_of_heapClosed hcl
  have ha : a < heap.dicts.length := by
    cases fuel with
    | zero => simp [readAddr] at hread
    | succ f =>
      simp only [readAddr] at hread
      rcases Option.bind_eq_some.mp hread with ⟨entries, hga, _⟩
      exact (List.getElem?_eq_some.mp hga).1
  rcases sanHeap_total fuel heap.dicts.length heap.lists.length heap a t
    hcb (le_refl _) (le_refl _) ha hread with ⟨pr, hs⟩
  have ext := sanHeap_ext fuel heap a pr.1 pr.2 (by rw [hs])
  refine ⟨pr, hs, ext.2.1, ha, ?_⟩
  exact readAddr_stable fuel heap.dicts.length heap.lists.length heap pr.1
    a t hcb (preservesBelow_of_LE (le_refl _) (le_refl _) ext.1) ha hread

/-- Concrete instance of the heap-level claim: a one-dict heap carrying a
marker key and the vendor name; the call succeeds, allocates a fresh
object, and the original dict reads back unchanged. -/
theorem sanitize_heap_witness :
    heapClosed heapEx = true ∧ readAddr 5 heapEx 0 = some treeEx ∧
    ∃ pr : Heap × Nat, sanHeap 5 heapEx 0 = some pr ∧
      pr.2 = heapEx.dicts.length ∧ 0 < heapEx.dicts.length ∧
      readAddr 5 pr.1 0 = some treeEx :=
  ⟨rfl, rfl, sanitize_heap_total_fresh_nonmutating 5 heapEx 0 treeEx rfl rfl⟩
